import Mathlib

/-!
# md2nsx: a shallow embedding of `converter.go`

Go strings are byte sequences, so a string is modelled as a list of bytes
(`GoString`).  `len`, slicing, `strings.Contains`, `strings.ReplaceAll` act on
bytes, exactly as in Go.  The regular expressions of the source only use ASCII
literals and classes that are ASCII sets or their complements, so matching byte
by byte finds the same matches as matching rune by rune: a match can neither
start nor end inside a multi-byte character.

The library functions the source calls are modelled by what they compute:
`strings` (`HasPrefix`, `Contains`, `ReplaceAll`, `TrimSpace`, `NewReplacer`),
`regexp` (a backtracking matcher, leftmost-first as in Go), `encoding/base64`,
`crypto/md5`, `fmt` (`%d`, `%x`), `filepath.Base` (separator `/`).

The file system, the media-type detector and the clock are inputs of the
reference rewriter (`World`); the outcome of every fallible operation of the
package builder is an input too (`PackWorld`), and so are those of the batch
driver, the result of goldmark's conversion and the order in which a map is
ranged over (`BatchWorld`).  Console output is not modelled.

The first part of the file holds the definitions, the second the theorems.
-/

namespace Md2nsx

/-! ## Strings -/

/-- One byte of a Go string. -/
abbrev Byte := Fin 256

/-- A Go `string` (also used for `[]byte`): a sequence of bytes. -/
abbrev GoString := List Byte

/-- UTF-8 encoding of one code point, as the Go compiler encodes a string literal. -/
def utf8EncodeChar (c : Char) : GoString :=
  let v := c.toNat
  if v ≤ 127 then [Fin.ofNat v]
  else if v ≤ 2047 then [Fin.ofNat (192 + v / 64 % 32), Fin.ofNat (128 + v % 64)]
  else if v ≤ 65535 then
    [Fin.ofNat (224 + v / 4096 % 16), Fin.ofNat (128 + v / 64 % 64), Fin.ofNat (128 + v % 64)]
  else
    [Fin.ofNat (240 + v / 262144 % 8), Fin.ofNat (128 + v / 4096 % 64),
     Fin.ofNat (128 + v / 64 % 64), Fin.ofNat (128 + v % 64)]

/-- The bytes of a string literal of the source. -/
def B (s : String) : GoString := s.data.flatMap utf8EncodeChar

/-- Go `strings.HasPrefix(s, p)`. -/
def hasPrefix (s p : GoString) : Bool := p.isPrefixOf s

/-- Go `strings.Contains(s, sub)`: `sub` occurs in `s` as a contiguous byte sequence. -/
def contains : GoString → GoString → Bool
  | [], sub => hasPrefix [] sub
  | c :: cs, sub => hasPrefix (c :: cs) sub || contains cs sub

/-- The scan of `strings.ReplaceAll`: `skip` counts the bytes of the occurrence
being replaced that are still to be passed over. -/
def replaceGo (old new : GoString) : GoString → Nat → GoString
  | [], _ => []
  | _ :: cs, skip + 1 => replaceGo old new cs skip
  | c :: cs, 0 =>
    if hasPrefix (c :: cs) old then new ++ replaceGo old new cs (old.length - 1)
    else c :: replaceGo old new cs 0

/-- Go `strings.ReplaceAll(s, old, new)` for a non-empty `old`: the non-overlapping
occurrences of `old`, found left to right, are replaced by `new`.  Every call in
`converter.go` passes a non-empty `old`; for the empty `old` (where Go inserts
`new` at every rune boundary) the model returns `s`. -/
def replaceAll (s old new : GoString) : GoString :=
  match old with
  | [] => s
  | _ :: _ => replaceGo old new s 0

/-- The UTF-8 encodings of the code points for which Go `unicode.IsSpace` holds:
tab, LF, VT, FF, CR, space, U+0085, U+00A0, U+1680, U+2000..U+200A, U+2028,
U+2029, U+202F, U+205F, U+3000. -/
def spaceEncodings : List GoString :=
  [[0x09], [0x0A], [0x0B], [0x0C], [0x0D], [0x20],
   [0xC2, 0x85], [0xC2, 0xA0], [0xE1, 0x9A, 0x80],
   [0xE2, 0x80, 0x80], [0xE2, 0x80, 0x81], [0xE2, 0x80, 0x82], [0xE2, 0x80, 0x83],
   [0xE2, 0x80, 0x84], [0xE2, 0x80, 0x85], [0xE2, 0x80, 0x86], [0xE2, 0x80, 0x87],
   [0xE2, 0x80, 0x88], [0xE2, 0x80, 0x89], [0xE2, 0x80, 0x8A],
   [0xE2, 0x80, 0xA8], [0xE2, 0x80, 0xA9], [0xE2, 0x80, 0xAF],
   [0xE2, 0x81, 0x9F], [0xE3, 0x80, 0x80]]

/-- Width in bytes of the white-space rune that `s` starts with under the
encodings `encs`, 0 when it starts with none. -/
def leadingWidth (encs : List GoString) (s : GoString) : Nat :=
  match encs.find? (fun e => e.isPrefixOf s) with
  | some e => e.length
  | none => 0

/-- Strip leading runes whose encoding is in `encs` (at most `fuel` of them). -/
def trimLeftAux (encs : List GoString) : Nat → GoString → GoString
  | 0, s => s
  | n + 1, s =>
    if leadingWidth encs s = 0 then s else trimLeftAux encs n (s.drop (leadingWidth encs s))

/-- Go `strings.TrimLeftFunc(s, unicode.IsSpace)`. -/
def trimLeftSpace (s : GoString) : GoString := trimLeftAux spaceEncodings s.length s

/-- Go `strings.TrimRightFunc(s, unicode.IsSpace)`: the last rune is decoded
backwards from the end of the string. -/
def trimRightSpace (s : GoString) : GoString :=
  (trimLeftAux (spaceEncodings.map List.reverse) s.length s.reverse).reverse

/-- Go `strings.TrimSpace(s)`: leading, then trailing Unicode white space removed. -/
def trimSpace (s : GoString) : GoString := trimRightSpace (trimLeftSpace s)

/-! ## Encodings: decimal, base64, MD5 -/

/-- Decimal digits of `n`, most significant first, put in front of `acc`. -/
def natDigitsAux : Nat → Nat → GoString → GoString
  | 0, _, acc => acc
  | fuel + 1, n, acc =>
    if n / 10 = 0 then Fin.ofNat (48 + n % 10) :: acc
    else natDigitsAux fuel (n / 10) (Fin.ofNat (48 + n % 10) :: acc)

/-- Decimal representation of a natural number. -/
def decimalNat (n : Nat) : GoString := natDigitsAux (n + 1) n []

/-- Go `fmt.Sprintf("%d", i)` for an integer `i`. -/
def decimal (i : Int) : GoString :=
  if i < 0 then (0x2D : Byte) :: decimalNat i.natAbs else decimalNat i.toNat

/-- The value of a string of decimal digits. -/
def digitsValue (ds : GoString) : Nat := ds.foldl (fun acc d => acc * 10 + (d.val - 48)) 0

/-- The alphabet of `base64.StdEncoding`. -/
def b64Alphabet : GoString :=
  B "ABCDEFGHIJKLMNOPQRSTUVWXYZabcdefghijklmnopqrstuvwxyz0123456789+/"

/-- The character of the 6-bit value `n`. -/
def b64Char (n : Nat) : Byte := b64Alphabet.getD n 0x3D

/-- The 6-bit value of a character of the alphabet (`decodeMap`), `none` for
any other byte. -/
def b64Index (b : Byte) : Option Nat :=
  if b64Alphabet.indexOf b < 64 then some (b64Alphabet.indexOf b) else none

/-- Go `base64.StdEncoding.EncodeToString`: three bytes give four characters;
a last group of one or two bytes is padded with `=`. -/
def base64Encode : GoString → GoString
  | [] => []
  | [a] => [b64Char (a.val / 4), b64Char (a.val % 4 * 16), 0x3D, 0x3D]
  | [a, b] =>
    [b64Char (a.val / 4), b64Char (a.val % 4 * 16 + b.val / 16), b64Char (b.val % 16 * 4), 0x3D]
  | a :: b :: c :: rest =>
    b64Char (a.val / 4) :: b64Char (a.val % 4 * 16 + b.val / 16) ::
      b64Char (b.val % 16 * 4 + c.val / 64) :: b64Char (c.val % 64) :: base64Encode rest

/-- The quanta of `base64.StdEncoding.DecodeString` on input without line
breaks: four characters give three bytes (`val` is the 24-bit group); padding
is accepted only in the last quantum; anything else is a `CorruptInputError`. -/
def base64DecodeAux : Nat → GoString → Option GoString
  | 0, _ => none
  | _ + 1, [] => some []
  | fuel + 1, c1 :: c2 :: c3 :: c4 :: rest =>
    match b64Index c1, b64Index c2 with
    | some s1, some s2 =>
      match b64Index c3, b64Index c4 with
      | some s3, some s4 =>
        let val := s1 * 262144 + s2 * 4096 + s3 * 64 + s4
        match base64DecodeAux fuel rest with
        | some out =>
          some (Fin.ofNat (val / 65536) :: Fin.ofNat (val / 256) :: Fin.ofNat val :: out)
        | none => none
      | some s3, none =>
        if c4 = 0x3D ∧ rest = [] then
          let val := s1 * 262144 + s2 * 4096 + s3 * 64
          some [Fin.ofNat (val / 65536), Fin.ofNat (val / 256)]
        else none
      | none, _ =>
        if c3 = 0x3D ∧ c4 = 0x3D ∧ rest = [] then
          let val := s1 * 262144 + s2 * 4096
          some [Fin.ofNat (val / 65536)]
        else none
    | _, _ => none
  | _ + 1, _ => none

/-- Go `base64.StdEncoding.DecodeString`: `\r` and `\n` are ignored. -/
def base64Decode (s : GoString) : Option GoString :=
  let t := s.filter (fun b => b != 0x0A && b != 0x0D)
  base64DecodeAux (t.length + 1) t

/-- Rotation of a 32-bit word to the left. -/
def rotl32 (x c : Nat) : Nat := (x * 2 ^ c % 4294967296) ||| (x / 2 ^ (32 - c))

/-- Per-round shift amounts of MD5. -/
def md5Shifts : List Nat :=
  [7, 12, 17, 22, 7, 12, 17, 22, 7, 12, 17, 22, 7, 12, 17, 22,
   5, 9, 14, 20, 5, 9, 14, 20, 5, 9, 14, 20, 5, 9, 14, 20,
   4, 11, 16, 23, 4, 11, 16, 23, 4, 11, 16, 23, 4, 11, 16, 23,
   6, 10, 15, 21, 6, 10, 15, 21, 6, 10, 15, 21, 6, 10, 15, 21]

/-- Per-round constants of MD5. -/
def md5Consts : List Nat :=
  [0xd76aa478, 0xe8c7b756, 0x242070db, 0xc1bdceee, 0xf57c0faf, 0x4787c62a, 0xa8304613, 0xfd469501,
   0x698098d8, 0x8b44f7af, 0xffff5bb1, 0x895cd7be, 0x6b901122, 0xfd987193, 0xa679438e, 0x49b40821,
   0xf61e2562, 0xc040b340, 0x265e5a51, 0xe9b6c7aa, 0xd62f105d, 0x02441453, 0xd8a1e681, 0xe7d3fbc8,
   0x21e1cde6, 0xc33707d6, 0xf4d50d87, 0x455a14ed, 0xa9e3e905, 0xfcefa3f8, 0x676f02d9, 0x8d2a4c8a,
   0xfffa3942, 0x8771f681, 0x6d9d6122, 0xfde5380c, 0xa4beea44, 0x4bdecfa9, 0xf6bb4b60, 0xbebfbc70,
   0x289b7ec6, 0xeaa127fa, 0xd4ef3085, 0x04881d05, 0xd9d4d039, 0xe6db99e5, 0x1fa27cf8, 0xc4ac5665,
   0xf4292244, 0x432aff97, 0xab9423a7, 0xfc93a039, 0x655b59c3, 0x8f0ccc92, 0xffeff47d, 0x85845dd1,
   0x6fa87e4f, 0xfe2ce6e0, 0xa3014314, 0x4e0811a1, 0xf7537e82, 0xbd3af235, 0x2ad7d2bb, 0xeb86d391]

/-- The four 32-bit words of the MD5 state. -/
structure Md5State where
  /-- Word A. -/
  a : Nat
  /-- Word B. -/
  b : Nat
  /-- Word C. -/
  c : Nat
  /-- Word D. -/
  d : Nat

/-- One of the 64 operations of MD5 on the message words `m`. -/
def md5Step (m : List Nat) (s : Md5State) (i : Nat) : Md5State :=
  let notB := 4294967295 - s.b
  let notD := 4294967295 - s.d
  let f :=
    if i < 16 then (s.b &&& s.c) ||| (notB &&& s.d)
    else if i < 32 then (s.d &&& s.b) ||| (notD &&& s.c)
    else if i < 48 then s.b ^^^ s.c ^^^ s.d
    else s.c ^^^ (s.b ||| notD)
  let g :=
    if i < 16 then i
    else if i < 32 then (5 * i + 1) % 16
    else if i < 48 then (3 * i + 5) % 16
    else 7 * i % 16
  let x := (f + s.a + md5Consts.getD i 0 + m.getD g 0) % 4294967296
  { a := s.d, d := s.c, c := s.b, b := (s.b + rotl32 x (md5Shifts.getD i 0)) % 4294967296 }

/-- Little-endian 32-bit words of a byte sequence. -/
def leWords : GoString → List Nat
  | b0 :: b1 :: b2 :: b3 :: rest =>
    (b0.val + 256 * b1.val + 65536 * b2.val + 16777216 * b3.val) :: leWords rest
  | _ => []

/-- The four bytes of a 32-bit word, least significant first. -/
def leBytes (n : Nat) : GoString :=
  [Fin.ofNat n, Fin.ofNat (n / 256), Fin.ofNat (n / 65536), Fin.ofNat (n / 16777216)]

/-- MD5 on one 64-byte block. -/
def md5Block (s : Md5State) (block : GoString) : Md5State :=
  let t := (List.range 64).foldl (md5Step (leWords block)) s
  { a := (s.a + t.a) % 4294967296, b := (s.b + t.b) % 4294967296,
    c := (s.c + t.c) % 4294967296, d := (s.d + t.d) % 4294967296 }

/-- MD5 over the blocks of the padded message. -/
def md5Blocks : Nat → Md5State → GoString → Md5State
  | 0, s, _ => s
  | fuel + 1, s, msg =>
    if msg.length < 64 then s else md5Blocks fuel (md5Block s (msg.take 64)) (msg.drop 64)

/-- Go `md5.Sum(data)`: the 16 bytes of the digest. -/
def md5Sum (data : GoString) : GoString :=
  let padLen := (119 - data.length % 64) % 64
  let bits := 8 * data.length
  let msg := data ++ (0x80 : Byte) :: List.replicate padLen 0 ++
    (leBytes (bits % 4294967296) ++ leBytes (bits / 4294967296 % 4294967296))
  let s := md5Blocks (msg.length / 64 + 1)
    { a := 0x67452301, b := 0xefcdab89, c := 0x98badcfe, d := 0x10325476 } msg
  leBytes s.a ++ leBytes s.b ++ leBytes s.c ++ leBytes s.d

/-- The lower-case hexadecimal digit of `n < 16`. -/
def hexDigit (n : Nat) : Byte := (B "0123456789abcdef").getD n 0x30

/-- Go `fmt.Sprintf("%x", bytes)`: two lower-case hexadecimal digits per byte. -/
def hexString (bs : GoString) : GoString :=
  bs.flatMap (fun b => [hexDigit (b.val / 16), hexDigit (b.val % 16)])

/-- Go `generateMD5Hash`. -/
def generateMD5Hash (input : GoString) : GoString := hexString (md5Sum input)

/-! ## Excerpt generation -/

/-- The replacer of `cleanBrief`: `strings.NewReplacer("\n", " ", "\r", " ", "\t", " ")`;
all patterns are single bytes, so it maps byte by byte. -/
def briefReplacer (s : GoString) : GoString :=
  s.map (fun b => if b = 0x0A ∨ b = 0x0D ∨ b = 0x09 then 0x20 else b)

/-- The loop `for strings.Contains(brief, "  ") { brief = strings.ReplaceAll(brief, "  ", " ") }`
of `cleanBrief`, run for at most `fuel` iterations. -/
def collapseSpaces : Nat → GoString → GoString
  | 0, s => s
  | n + 1, s =>
    if contains s (B "  ") then collapseSpaces n (replaceAll s (B "  ") (B " ")) else s

/-- Go `cleanBrief`.  Every iteration of the loop shortens the text, so
`length` iterations are enough (`collapseSpaces_done`). -/
def cleanBrief (brief : GoString) : GoString :=
  let brief := briefReplacer brief
  let brief := collapseSpaces brief.length brief
  trimSpace brief

/-- Go `generateBriefFromMarkdown`: `len` and the slice `[:100]` count bytes. -/
def generateBriefFromMarkdown (markdownContent : GoString) : GoString :=
  let plainText := cleanBrief markdownContent
  if plainText.length > 100 then plainText.take 100 ++ B "..." else plainText

/-! ## Regular expressions

The fragment of Go's `regexp` syntax that the three patterns of `converter.go`
use, with a backtracking matcher: Go returns the leftmost match and, among the
matches starting there, the one a backtracking search finds first. -/

/-- Regular expressions over bytes. -/
inductive Re where
  /-- One byte of a class: a literal, `.`, `\s`, `[^>]`. -/
  | byte (p : Byte → Bool)
  /-- The empty expression. -/
  | empty
  /-- Concatenation. -/
  | seq (a b : Re)
  /-- Alternation `a|b`, preferring `a`. -/
  | alt (a b : Re)
  /-- Greedy repetition `a*`. -/
  | star (a : Re)
  /-- Non-greedy repetition `a*?`. -/
  | lazyStar (a : Re)
  /-- Greedy option `a?`. -/
  | opt (a : Re)
  /-- Capturing group number `i`. -/
  | group (i : Nat) (a : Re)

/-- The text captured by each group so far (`none`: the group did not take part). -/
abbrev Caps := List (Option GoString)

/-- What a match attempt yields: the input left after the match, and the captures. -/
abbrev MatchResult := Option (GoString × Caps)

/-- The continuation of a match attempt. -/
abbrev Cont := GoString → Caps → MatchResult

/-- Greedy loop of `a*`: one more iteration is tried before leaving the loop.
An iteration has to consume input (all starred expressions of the patterns
are single-byte classes), so `length` iterations of fuel are enough. -/
def starLoop (step : GoString → Caps → Cont → MatchResult) : Nat → GoString → Caps → Cont →
    MatchResult
  | 0, s, c, k => k s c
  | n + 1, s, c, k =>
    (step s c (fun s' c' => if s'.length < s.length then starLoop step n s' c' k else none))
      <|> k s c

/-- Non-greedy loop of `a*?`: leaving the loop is tried before one more iteration. -/
def lazyLoop (step : GoString → Caps → Cont → MatchResult) : Nat → GoString → Caps → Cont →
    MatchResult
  | 0, s, c, k => k s c
  | n + 1, s, c, k =>
    k s c <|>
      step s c (fun s' c' => if s'.length < s.length then lazyLoop step n s' c' k else none)

/-- Backtracking match of `r` at the start of `s`, then of the continuation `k`
on what is left. -/
def Re.run : Re → GoString → Caps → Cont → MatchResult
  | .byte p, s, c, k =>
    match s with
    | [] => none
    | x :: xs => if p x then k xs c else none
  | .empty, s, c, k => k s c
  | .seq a b, s, c, k => a.run s c (fun s' c' => b.run s' c' k)
  | .alt a b, s, c, k => a.run s c k <|> b.run s c k
  | .star a, s, c, k => starLoop (fun s' c' k' => a.run s' c' k') s.length s c k
  | .lazyStar a, s, c, k => lazyLoop (fun s' c' k' => a.run s' c' k') s.length s c k
  | .opt a, s, c, k => a.run s c k <|> k s c
  | .group i a, s, c, k =>
    a.run s c (fun s' c' => k s' (c'.set i (some (s.take (s.length - s'.length)))))

/-- The byte strings an expression matches (its language). -/
def Re.Matches : Re → GoString → Prop
  | .byte p, u => ∃ x, u = [x] ∧ p x = true
  | .empty, u => u = []
  | .seq a b, u => ∃ u1 u2, u = u1 ++ u2 ∧ a.Matches u1 ∧ b.Matches u2
  | .alt a b, u => a.Matches u ∨ b.Matches u
  | .star a, u => ∃ us : List GoString, u = us.flatten ∧ ∀ x ∈ us, x ≠ [] ∧ a.Matches x
  | .lazyStar a, u => ∃ us : List GoString, u = us.flatten ∧ ∀ x ∈ us, x ≠ [] ∧ a.Matches x
  | .opt a, u => u = [] ∨ a.Matches u
  | .group _ a, u => a.Matches u

/-- A matching step is sound for the language `L`: when it succeeds, it consumed
a prefix in `L` and its continuation succeeded on the rest. -/
def StepSound (step : GoString → Caps → Cont → MatchResult) (L : GoString → Prop) : Prop :=
  ∀ (s : GoString) (c : Caps) (k : Cont) (x : GoString × Caps), step s c k = some x →
    ∃ u v c', s = u ++ v ∧ L u ∧ k v c' = some x

/-- A matching step is complete for the language `L`: it succeeds whenever the
input starts with a member of `L` after which the continuation succeeds. -/
def StepComplete (step : GoString → Caps → Cont → MatchResult) (L : GoString → Prop) : Prop :=
  ∀ (u : GoString), L u → ∀ (v : GoString) (c : Caps) (k : Cont),
    (∀ c', (k v c').isSome = true) → (step (u ++ v) c k).isSome = true

/-- A literal byte. -/
def Re.ch(c : Char) : Re := .byte (fun b => b == Fin.ofNat c.toNat)

/-- A literal string. -/
def Re.lit (s : String) : Re := (B s).foldr (fun b r => .seq (.byte (fun x => x == b)) r) .empty

/-- Concatenation of a list of expressions. -/
def Re.cat (rs : List Re) : Re := rs.foldr .seq .empty

/-- The class `.`: any byte but a newline. -/
def Re.dot : Re := .byte (fun b => b != 0x0A)

/-- The class `\s`, that is `[\t\n\f\r ]`. -/
def Re.space : Re := .byte (fun b => b == 0x09 || b == 0x0A || b == 0x0C || b == 0x0D || b == 0x20)

/-- The class `[^>]`. -/
def Re.notGt : Re := .byte (fun b => b != 0x3E)

/-- A compiled pattern: the expression and its number of capturing groups. -/
structure Regexp where
  /-- The expression. -/
  re : Re
  /-- Number of capturing groups. -/
  numGroups : Nat

/-- Match at the start of `s`: the rest of the input and the submatches
`[whole match, group 1, ..., group numGroups]`, an unset group being `""`. -/
def Regexp.matchAt (p : Regexp) (s : GoString) : Option (GoString × List GoString) :=
  match p.re.run s (List.replicate (p.numGroups + 1) none) (fun s' c' => some (s', c')) with
  | none => none
  | some (rest, caps) =>
    some (rest, s.take (s.length - rest.length) :: (caps.drop 1).map (fun g => g.getD []))

/-- The scan of `FindAllStringSubmatch`: the leftmost match, then the search goes
on after it.  No pattern of `converter.go` matches the empty string; an empty
match would be recorded and the scan moved on by one byte. -/
def Regexp.findAllAux (p : Regexp) : Nat → GoString → List (List GoString)
  | 0, _ => []
  | n + 1, s =>
    match p.matchAt s with
    | some (rest, m) =>
      if rest.length < s.length then m :: Regexp.findAllAux p n rest
      else m :: Regexp.findAllAux p n (s.drop 1)
    | none =>
      match s with
      | [] => []
      | _ :: s' => Regexp.findAllAux p n s'

/-- Go `re.FindAllStringSubmatch(s, -1)`. -/
def Regexp.findAllStringSubmatch (p : Regexp) (s : GoString) : List (List GoString) :=
  p.findAllAux (s.length + 1) s

/-- Go `re.FindAllString(s, -1)`: the whole matches only. -/
def Regexp.findAllString (p : Regexp) (s : GoString) : List GoString :=
  (p.findAllStringSubmatch s).map (fun m => m.headD [])

/-- The pattern `!\[(.*?)\]\((.*?)(?:\s+"(.*?)")?\)`. -/
def imagePattern : Regexp where
  re := Re.cat [Re.lit "![", .group 1 (.lazyStar Re.dot), Re.lit "](",
    .group 2 (.lazyStar Re.dot),
    .opt (Re.cat [Re.space, .star Re.space, Re.ch '"', .group 3 (.lazyStar Re.dot), Re.ch '"']),
    Re.ch ')']
  numGroups := 3

/-- The pattern `\[(.*?)\]\((.*?)\.(pdf|doc|docx|txt|zip|rar|md|csv|xls|xlsx)\)`. -/
def linkPattern : Regexp where
  re := Re.cat [Re.ch '[', .group 1 (.lazyStar Re.dot), Re.lit "](",
    .group 2 (.lazyStar Re.dot), Re.ch '.',
    .group 3 (.alt (Re.lit "pdf") (.alt (Re.lit "doc") (.alt (Re.lit "docx") (.alt (Re.lit "txt")
      (.alt (Re.lit "zip") (.alt (Re.lit "rar") (.alt (Re.lit "md") (.alt (Re.lit "csv")
      (.alt (Re.lit "xls") (Re.lit "xlsx")))))))))),
    Re.ch ')']
  numGroups := 3

/-- The pattern `<input[^>]*type="checkbox"[^>]*>`. -/
def checkboxPattern : Regexp where
  re := Re.cat [Re.lit "<input", .star Re.notGt, Re.lit "type=\"checkbox\"", .star Re.notGt,
    Re.ch '>']
  numGroups := 0

/-! ## The converter and its environment -/

/-- Go `ProcessedImage`. -/
structure ProcessedImage where
  /-- Field `MD5Hash`. -/
  MD5Hash : GoString
  /-- Field `ImageDataB64`. -/
  ImageDataB64 : GoString
  deriving DecidableEq

/-- Go `Attachment`. -/
structure Attachment where
  /-- Field `MD5`. -/
  MD5 : GoString
  /-- Field `Name`. -/
  Name : GoString
  /-- Field `Size`. -/
  Size : Int
  /-- Field `Width`. -/
  Width : Int
  /-- Field `Height`. -/
  Height : Int
  /-- Field `Type` (a reserved word in Lean): the detected media type. -/
  MimeType : GoString
  /-- Field `CTime`. -/
  CTime : Int
  /-- Field `Ref`. -/
  Ref : GoString
  deriving DecidableEq

/-- A Go `map[string]Attachment`: the entries, each key at most once. -/
abbrev AttachmentMap := List (GoString × Attachment)

/-- The assignment `m[k] = v` of a Go map: an entry with key `k` is
overwritten, otherwise an entry is added. -/
def mapSet (m : AttachmentMap) (k : GoString) (v : Attachment) : AttachmentMap :=
  if m.any (fun e => e.1 == k) then m.map (fun e => if e.1 == k then (k, v) else e)
  else m ++ [(k, v)]

/-- Go `NSXConverter`. -/
structure NSXConverter where
  /-- Field `processedImages`. -/
  processedImages : List ProcessedImage
  /-- Field `attachments`. -/
  attachments : AttachmentMap
  deriving DecidableEq

/-- Go `NewNSXConverter`. -/
def NewNSXConverter : NSXConverter := { processedImages := [], attachments := [] }

/-- One call of the walk function made by `filepath.Walk`. -/
structure WalkEntry where
  /-- The path of the entry. -/
  path : GoString
  /-- Whether `info.IsDir()` holds. -/
  isDir : Bool
  /-- Whether the entry is reported with an error (`err != nil`). -/
  failed : Bool

/-- The environment of a run: file system, media-type detector and clock. -/
structure World where
  /-- Whether `os.Stat(path)` succeeds. -/
  stat : GoString → Bool
  /-- The entries that `filepath.Walk(filepath.Dir(mdFile), fn)` reports to `fn`,
  in order, as long as `fn` returns `nil`; indexed by the document `mdFile`. -/
  walk : GoString → List WalkEntry
  /-- The result of `os.ReadFile(path)`: the bytes, or `none` on an error. -/
  readFile : GoString → Option GoString
  /-- The result of `mimetype.Detect(data).String()`. -/
  detect : GoString → GoString
  /-- The successive readings of `time.Now().Unix()`. -/
  clock : Nat → Int

/-- The mutable state of a run: the converter and the number of clock readings
taken so far. -/
structure RunState where
  /-- The converter `c`. -/
  c : NSXConverter
  /-- How many times the clock has been read. -/
  clockReads : Nat
  deriving DecidableEq

/-- Drop the trailing bytes `/` of a path. -/
def stripTrailingSlashes (path : GoString) : GoString :=
  (path.reverse.dropWhile (fun b => b == 0x2F)).reverse

/-- The last element of a path without trailing `/`: what follows the last `/`. -/
def lastElement (path : GoString) : GoString :=
  (path.reverse.takeWhile (fun b => b != 0x2F)).reverse

/-- Go `filepath.Base(path)` (separator `/`). -/
def filepathBase (path : GoString) : GoString :=
  if path = [] then B "."
  else
    let p := lastElement (stripTrailingSlashes path)
    if p = [] then B "/" else p

/-- The walk of `findFile`: the walk function returns the error of a failed
entry (the walk stops with that error), stops the walk with `SkipAll` at the
first non-directory entry whose base name contains the base name of `link`, and
returns `nil` otherwise.  `some path`: stopped at `path`; `none`: the walk ended
without a match. -/
def walkFind (link : GoString) : List WalkEntry → Except Unit (Option GoString)
  | [] => .ok none
  | e :: es =>
    if e.failed then .error ()
    else if !e.isDir && contains (filepathBase e.path) (filepathBase link) then .ok (some e.path)
    else walkFind link es

/-- Go `findFile`.  `filepath.Walk` turns `SkipAll` into `nil`, so after the walk
`err` is `nil` both when a file matched and when none did: in the latter case
`link` is returned as it was. -/
def findFile (w : World) (mdFile link : GoString) : Except GoString GoString :=
  if w.stat link then .ok link
  else
    match walkFind link (w.walk mdFile) with
    | .error _ => .error (B "file not found: " ++ link)
    | .ok (some path) => .ok path
    | .ok none => .ok link

/-- The image placeholder tag of `processAttachment`. -/
def imageTag (width : Int) (refB64 : GoString) : GoString :=
  B ("<img class=\"syno-notestation-image-object\" " ++
     "src=\"webman/3rdparty/NoteStation/images/transparent.gif\" border=\"0\" width=\"") ++
    decimal width ++ B "\" ref=\"" ++ refB64 ++ B "\" adjust=\"true\"/>"

/-- The anchor tag of `processAttachment`. -/
def anchorTag (refB64 displayText : GoString) : GoString :=
  B "<a href=\"" ++ refB64 ++ B "\" target=\"_blank\">" ++ displayText ++ B "</a>"

/-- The `switch matchType` of `processAttachment` that sets `isImage`: an
`image` match is an image, a `link` match is one when the detected media type
starts with `image/`, any other match type is not. -/
def classifyImage (matchType mimeType : GoString) : Bool :=
  if matchType = B "image" then true
  else if matchType = B "link" then hasPrefix mimeType (B "image/")
  else false

/-- Go `processAttachment`: the error (if any), the new `*mdContent` and the new
state. -/
def processAttachment (w : World) (mdFile matchType altText link : GoString)
    (mdContent : GoString) (st : RunState) : Option GoString × GoString × RunState :=
  match findFile w mdFile link with
  | .error _ => (some (B "file not found: " ++ link), mdContent, st)
  | .ok filePath =>
    match w.readFile filePath with
    | none => (some (B "failed to read file " ++ filePath), mdContent, st)
    | some fileData =>
      let md5Hash := generateMD5Hash fileData
      let mimeType := w.detect fileData
      let isImage := classifyImage matchType mimeType
      let width : Int := if isImage then 400 else 0
      let height : Int := if isImage then 300 else 0
      let timestamp := w.clock st.clockReads
      let originalFilename := filepathBase filePath
      let filenameWithTimestamp := originalFilename ++ decimal timestamp
      let filenameB64 := base64Encode filenameWithTimestamp
      let fileKey := B "file_" ++ filenameB64
      let refContent := decimal timestamp ++ originalFilename
      let refB64 := base64Encode refContent
      let htmlTag :=
        if isImage then imageTag width refB64
        else
          let displayText :=
            if altText = [] then (if matchType = B "link" then B "Attachment" else B "File")
            else altText
          anchorTag refB64 displayText
      let originalMD :=
        if isImage then B "![" ++ altText ++ B "](" ++ link ++ B ")"
        else B "[" ++ altText ++ B "](" ++ link ++ B ")"
      let attachment : Attachment :=
        { MD5 := md5Hash, Name := originalFilename, Size := fileData.length, Width := width,
          Height := height, MimeType := mimeType, CTime := timestamp, Ref := refB64 }
      let images :=
        if isImage then
          st.c.processedImages ++ [{ MD5Hash := md5Hash, ImageDataB64 := base64Encode fileData }]
        else st.c.processedImages
      (none, replaceAll mdContent originalMD htmlTag,
        { c := { processedImages := images, attachments := mapSet st.c.attachments fileKey attachment },
          clockReads := st.clockReads + 1 })

/-- The body of the first loop of `processAttachments`, for one match of
`imagePattern`. -/
def processImageMatch (w : World) (mdFile : GoString) (acc : GoString × RunState)
    (m : List GoString) : GoString × RunState :=
  if m.length ≥ 3 then
    let altText := m.getD 1 []
    let link := m.getD 2 []
    let altText := if m.length ≥ 4 ∧ m.getD 3 [] ≠ [] then m.getD 3 [] else altText
    (processAttachment w mdFile (B "image") altText link acc.1 acc.2).2
  else acc

/-- The body of the second loop of `processAttachments`, for one match of
`linkPattern`. -/
def processLinkMatch (w : World) (mdFile : GoString) (acc : GoString × RunState)
    (m : List GoString) : GoString × RunState :=
  if m.length ≥ 4 then
    let text := m.getD 1 []
    let link := m.getD 2 []
    let ext := m.getD 3 []
    let fullLink := link ++ B "." ++ ext
    (processAttachment w mdFile (B "link") text fullLink acc.1 acc.2).2
  else acc

/-- The call of `processAttachment` that the first loop of `processAttachments`
makes for a match of `imagePattern`: match type, alt text, link. -/
def imageCall (m : List GoString) : Option (GoString × GoString × GoString) :=
  if m.length ≥ 3 then
    some (B "image", if m.length ≥ 4 ∧ m.getD 3 [] ≠ [] then m.getD 3 [] else m.getD 1 [],
      m.getD 2 [])
  else none

/-- The call of `processAttachment` that the second loop of `processAttachments`
makes for a match of `linkPattern`. -/
def linkCall (m : List GoString) : Option (GoString × GoString × GoString) :=
  if m.length ≥ 4 then some (B "link", m.getD 1 [], m.getD 2 [] ++ B "." ++ m.getD 3 [])
  else none

/-- The calls of `processAttachment` that `processAttachments` makes on a text,
in order: one per recognised span. -/
def attachmentCalls (mdContent : GoString) : List (GoString × GoString × GoString) :=
  (imagePattern.findAllStringSubmatch mdContent).filterMap imageCall ++
    (linkPattern.findAllStringSubmatch mdContent).filterMap linkCall

/-- Go `processAttachments`: the returned text, the returned error (always
`nil`: a failed attachment only prints a warning) and the new state. -/
def processAttachments (w : World) (mdFile mdContent : GoString) (st : RunState) :
    (GoString × Option GoString) × RunState :=
  let imageMatches := imagePattern.findAllStringSubmatch mdContent
  let linkMatches := linkPattern.findAllStringSubmatch mdContent
  let r := imageMatches.foldl (processImageMatch w mdFile) (mdContent, st)
  let r := linkMatches.foldl (processLinkMatch w mdFile) r
  ((r.1, none), r.2)

/-! ## Packaging -/

/-- Go `Notebook`. -/
structure Notebook where
  /-- Field `Category`. -/
  Category : GoString
  /-- Field `ParentID`. -/
  ParentID : GoString
  /-- Field `Title`. -/
  Title : GoString
  deriving DecidableEq

/-- Go `NotebookConfig`. -/
structure NotebookConfig where
  /-- Field `Note`. -/
  Note : List GoString
  /-- Field `Notebook`. -/
  Notebook : List GoString
  deriving DecidableEq

/-- What is written into an archive member: raw bytes, or the JSON encoding
of a value (kept as the value; `json.Marshal` does not fail on these types). -/
inductive Payload where
  /-- Raw bytes. -/
  | bytes (data : GoString)
  /-- `json.Marshal(notebook)`. -/
  | notebook (n : Notebook)
  /-- `json.Marshal(config)`. -/
  | config (c : NotebookConfig)
  deriving DecidableEq

/-- A member of the archive: its name and the content written into it (`none`
when the entry was created and the write failed). -/
structure ZipEntry where
  /-- The member name. -/
  name : GoString
  /-- The content written. -/
  content : Option Payload
  deriving DecidableEq

/-- The `zip.Writer`: the entries so far and the number of `Create` calls made. -/
structure ZipWriter where
  /-- The entries created so far, in order. -/
  entries : List ZipEntry
  /-- The number of calls of `Create` so far. -/
  creates : Nat
  deriving DecidableEq

/-- The environment of `packageNSX`: the outcome of every fallible operation. -/
structure PackWorld where
  /-- Whether `os.Create(outputNSXPath)` succeeds. -/
  createFile : Bool
  /-- The result of `filepath.Glob(filepath.Join(outputDir, "note_*"))`. -/
  glob : Option (List GoString)
  /-- The result of `os.ReadFile` on a note file. -/
  readFile : GoString → Option GoString
  /-- Whether the `n`-th call `zipWriter.Create(name)` succeeds. -/
  zipCreate : Nat → GoString → Bool
  /-- Whether the `Write` into the entry made by the `n`-th `Create` succeeds. -/
  zipWrite : Nat → GoString → Bool

/-- The outcome of adding one member. -/
inductive AddResult where
  /-- `zipWriter.Create` failed. -/
  | createFailed
  /-- `writer.Write` failed. -/
  | writeFailed
  /-- The member was written. -/
  | written
  deriving DecidableEq

/-- The calls `zipWriter.Create(name)` and `writer.Write(data)`. -/
def zipAdd (pw : PackWorld) (zw : ZipWriter) (name : GoString) (data : Payload) :
    AddResult × ZipWriter :=
  if !pw.zipCreate zw.creates name then
    (.createFailed, { zw with creates := zw.creates + 1 })
  else if !pw.zipWrite zw.creates name then
    (.writeFailed, { entries := zw.entries ++ [{ name := name, content := none }],
                     creates := zw.creates + 1 })
  else
    (.written, { entries := zw.entries ++ [{ name := name, content := some data }],
                 creates := zw.creates + 1 })

/-- The body of the loop over the note files in `packageNSX`: the identifier is
appended to `noteIDs` first, then the file is read and added to the archive;
a failure of any of these steps goes on to the next file. -/
def packNote (pw : PackWorld) (acc : List GoString × ZipWriter) (noteFile : GoString) :
    List GoString × ZipWriter :=
  let noteID := filepathBase noteFile
  let noteIDs := acc.1 ++ [noteID]
  match pw.readFile noteFile with
  | none => (noteIDs, acc.2)
  | some noteData => (noteIDs, (zipAdd pw acc.2 noteID (.bytes noteData)).2)

/-- The body of the loop over `c.processedImages` in `packageNSX`. -/
def packImage (pw : PackWorld) (zw : ZipWriter) (processedImage : ProcessedImage) : ZipWriter :=
  let fileKey := B "file_" ++ processedImage.MD5Hash
  match base64Decode processedImage.ImageDataB64 with
  | none => zw
  | some imageData => (zipAdd pw zw fileKey (.bytes imageData)).2

/-- Go `packageNSX`: the returned error (`none` for `nil`) and the entries of
the archive.  The paths `outputDir` and `outputNSXPath` only reach the file
system, whose answers are in `pw`. -/
def packageNSX (pw : PackWorld) (c : NSXConverter) (notebookName notebookID : GoString) :
    Option GoString × List ZipEntry :=
  if !pw.createFile then (some (B "failed to create NSX file"), [])
  else
    match pw.glob with
    | none => (some (B "failed to find note files"), [])
    | some noteFiles =>
      let r := noteFiles.foldl (packNote pw) ([], { entries := [], creates := 0 })
      let noteIDs := r.1
      let zw := c.processedImages.foldl (packImage pw) r.2
      let notebook : Notebook :=
        { Category := B "notebook", ParentID := B "", Title := notebookName }
      match zipAdd pw zw notebookID (.notebook notebook) with
      | (.createFailed, zw) => (some (B "failed to create notebook entry"), zw.entries)
      | (.writeFailed, zw) => (some (B "failed to write notebook"), zw.entries)
      | (.written, zw) =>
        let config : NotebookConfig := { Note := noteIDs, Notebook := [notebookID] }
        match zipAdd pw zw (B "config.json") (.config config) with
        | (.createFailed, zw) => (some (B "failed to create config entry"), zw.entries)
        | (.writeFailed, zw) => (some (B "failed to write config"), zw.entries)
        | (.written, zw) => (none, zw.entries)

/-- The note list of the manifest: field `note` of the `config.json` member. -/
def manifestNotes (entries : List ZipEntry) : List GoString :=
  entries.flatMap (fun e =>
    match e.content with
    | some (.config cfg) => if e.name = B "config.json" then cfg.Note else []
    | _ => [])

/-- The names of the members into which raw bytes were written: the note and
image members. -/
def writtenDataNames (entries : List ZipEntry) : List GoString :=
  entries.filterMap (fun e =>
    match e.content with
    | some (.bytes _) => some e.name
    | _ => none)

/-! ## Sample environments -/

/-- The bytes of a small file. -/
def sampleBytes : GoString := [0x89, 0x50, 0x4E, 0x47, 0x0D, 0x0A, 0x1A, 0x0A]

/-- An environment in which `pic.png` exists in the working directory, is
detected as `image/png`, and the clock always reads 1700000000. -/
def picWorld : World where
  stat := fun p => p == B "pic.png"
  walk := fun _ => []
  readFile := fun p => if p = B "pic.png" then some sampleBytes else none
  detect := fun _ => B "image/png"
  clock := fun _ => 1700000000

/-- The environment `picWorld` with a clock that advances by one second at
every reading. -/
def tickingWorld : World :=
  { picWorld with clock := fun n => 1700000000 + n }

/-- A packaging environment in which every operation succeeds and no note
file was produced. -/
def allGoodPackWorld : PackWorld where
  createFile := true
  glob := some []
  readFile := fun _ => none
  zipCreate := fun _ _ => true
  zipWrite := fun _ _ => true

/-- An environment with the document `docs/a.md` alone in its directory:
no other path exists. -/
def loneWorld : World where
  stat := fun _ => false
  walk := fun _ => [{ path := B "docs", isDir := true, failed := false },
                    { path := B "docs/a.md", isDir := false, failed := false }]
  readFile := fun _ => none
  detect := fun _ => B "application/octet-stream"
  clock := fun _ => 1700000000

/-- A packaging environment with one note file that cannot be read; every
other operation succeeds. -/
def unreadableNoteWorld : PackWorld where
  createFile := true
  glob := some [B "temp_nsx_output/note_YQ=="]
  readFile := fun _ => none
  zipCreate := fun _ _ => true
  zipWrite := fun _ _ => true

/-! ## Checkbox substitution -/

/-- The widget markup of a checked checkbox. -/
def htmlCheckboxChecked : GoString :=
  B ("<input class=\"syno-notestation-editor-checkbox syno-notestation-editor-checkbox-checked " ++
     "note-station-checkbox-checked\" " ++
     "src=\"webman/3rdparty/NoteStation/images/transparent.gif\" type=\"image\" " ++
     "data-mce-contenteditable=\"false\" />")

/-- The widget markup of an unchecked checkbox. -/
def htmlCheckboxUnchecked : GoString :=
  B ("<input class=\"syno-notestation-editor-checkbox note-station-checkbox\" " ++
     "src=\"webman/3rdparty/NoteStation/images/transparent.gif\" type=\"image\" />")

/-- A rendered checkbox input tag: `<input` a `type="checkbox"` b `>`. -/
def checkboxTag (a b : GoString) : GoString :=
  B "<input" ++ a ++ B "type=\"checkbox\"" ++ b ++ B ">"

/-- Go `processTodoLists`: for each match of `checkboxPattern`, in order, every
occurrence of the matched text is replaced by the widget markup. -/
def processTodoLists (htmlContent : GoString) : GoString :=
  (checkboxPattern.findAllString htmlContent).foldl
    (fun html m =>
      if contains m (B "checked=\"\"") then replaceAll html m htmlCheckboxChecked
      else replaceAll html m htmlCheckboxUnchecked)
    htmlContent

/-! ## Document assembly and the batch driver -/

/-- Go `Note`.  `Latitude` and `Longitude` are `float64` fields that only ever
hold the constant 0; they are kept as integers. -/
structure Note where
  /-- Field `Category`. -/
  Category : GoString
  /-- Field `ParentID`. -/
  ParentID : GoString
  /-- Field `Title`. -/
  Title : GoString
  /-- Field `Thumb` (`nil` is `none`). -/
  Thumb : Option GoString
  /-- Field `MTime`. -/
  MTime : Int
  /-- Field `CTime`. -/
  CTime : Int
  /-- Field `Latitude`. -/
  Latitude : Int
  /-- Field `Longitude`. -/
  Longitude : Int
  /-- Field `Encrypt`. -/
  Encrypt : Bool
  /-- Field `Attachment`: the table `c.attachments` as it stands when the note
  is serialized, which `BatchConvert` does right after `createNote`. -/
  Attachment : AttachmentMap
  /-- Field `Brief`. -/
  Brief : GoString
  /-- Field `Content`. -/
  Content : GoString
  /-- Field `Tag`. -/
  Tag : List GoString
  deriving DecidableEq

/-- The environment of `BatchConvert`: the environment of the reference
rewriter, the Markdown library, and the outcome of every fallible operation. -/
structure BatchWorld where
  /-- File system, media types and clock of the reference rewriter. -/
  w : World
  /-- Whether the first `os.RemoveAll(outputDir)` succeeds. -/
  removeAll : Bool
  /-- Whether `os.MkdirAll(outputDir, 0755)` succeeds. -/
  mkdirAll : Bool
  /-- The result of `filepath.Glob(filepath.Join(mdFolder, "*.md"))`. -/
  globMd : Option (List GoString)
  /-- The result of `os.ReadFile(mdFile)` in `readFileWithEncoding`. -/
  readMd : GoString → Option GoString
  /-- The result of `md.Convert` of goldmark: the HTML, or `none` on an error. -/
  convert : GoString → Option GoString
  /-- The order in which `range c.attachments` visits the entries of the map. -/
  rangeOrder : AttachmentMap → AttachmentMap
  /-- Whether `json.MarshalIndent(note, "", "  ")` succeeds. -/
  marshal : Note → Bool
  /-- Whether `os.WriteFile` of the note file named `noteFilename` in `outputDir`
  succeeds. -/
  writeFile : GoString → Bool
  /-- The environment of `packageNSX`. -/
  pack : PackWorld

/-- Go `strings.TrimSuffix(s, suffix)`. -/
def trimSuffix (s suffix : GoString) : GoString :=
  if suffix.reverse.isPrefixOf s.reverse then s.take (s.length - suffix.length) else s

/-- Go `markdownToHTML`: the conversion by goldmark, then `processTodoLists`. -/
def markdownToHTML (bw : BatchWorld) (mdContent : GoString) : Option GoString :=
  match bw.convert mdContent with
  | none => none
  | some htmlContent => some (processTodoLists htmlContent)

/-- Go `createNote`: the note and the base64 of the title (`none` when the
conversion to HTML fails), and the state after the clock reading. -/
def createNote (bw : BatchWorld) (title markdownContent parentID : GoString) (st : RunState) :
    Option (Note × GoString) × RunState :=
  let titleBase64 := base64Encode title
  let markdownContent :=
    if trimSpace markdownContent = [] then B "Empty note" else markdownContent
  let currentTime := bw.w.clock st.clockReads
  let st' : RunState := { c := st.c, clockReads := st.clockReads + 1 }
  let thumb := ((bw.rangeOrder st.c.attachments).find?
    (fun e => hasPrefix e.2.MimeType (B "image/"))).map (fun e => e.1)
  let brief := generateBriefFromMarkdown markdownContent
  match markdownToHTML bw markdownContent with
  | none => (none, st')
  | some htmlContent =>
    (some ({ Category := B "note", ParentID := parentID, Title := title, Thumb := thumb,
             MTime := currentTime, CTime := currentTime, Latitude := 0, Longitude := 0,
             Encrypt := false, Attachment := st.c.attachments, Brief := brief,
             Content := htmlContent, Tag := [] }, titleBase64), st')

/-- The body of the loop of `BatchConvert` for one Markdown file: the note
file written (its name and the note serialized into it), `none` when a step
fails and the loop goes on to the next file; and the state the file leaves. -/
def convertOne (bw : BatchWorld) (notebookID : GoString) (st : RunState) (mdFile : GoString) :
    Option (GoString × Note) × RunState :=
  match bw.readMd mdFile with
  | none => (none, st)
  | some mdContent =>
    let r := processAttachments bw.w mdFile mdContent st
    match r.1.2 with
    | some _ => (none, r.2)
    | none =>
      let title := trimSuffix (filepathBase mdFile) (B ".md")
      let title := if title = [] then B "Untitled" else title
      let n := createNote bw title r.1.1 notebookID r.2
      match n.1 with
      | none => (none, n.2)
      | some (note, titleBase64) =>
        let noteFilename := B "note_" ++ titleBase64
        if !bw.marshal note then (none, n.2)
        else if !bw.writeFile noteFilename then (none, n.2)
        else (some (noteFilename, note), n.2)

/-- One iteration of the loop of `BatchConvert`, on the note files written so
far and the state. -/
def convertStep (bw : BatchWorld) (notebookID : GoString)
    (acc : List (GoString × Note) × RunState) (mdFile : GoString) :
    List (GoString × Note) × RunState :=
  match (convertOne bw notebookID acc.2 mdFile).1 with
  | none => (acc.1, (convertOne bw notebookID acc.2 mdFile).2)
  | some nf => (acc.1 ++ [nf], (convertOne bw notebookID acc.2 mdFile).2)

/-- What a run of `BatchConvert` leaves. -/
structure BatchResult where
  /-- The returned error (`none` for `nil`). -/
  err : Option GoString
  /-- The note files written during the run, in order: name and serialized note. -/
  notes : List (GoString × Note)
  /-- The entries of the archive. -/
  archive : List ZipEntry
  /-- The converter and the clock after the run. -/
  st : RunState

/-- Go `BatchConvert`.  The paths `mdFolder`, `outputDir` and `outputNSXPath` only
reach the file system, whose answers are in `bw`. -/
def BatchConvert (bw : BatchWorld) (notebookName : GoString) (st : RunState) : BatchResult :=
  if !bw.removeAll then
    { err := some (B "failed to clean output directory"), notes := [], archive := [], st := st }
  else if !bw.mkdirAll then
    { err := some (B "failed to create output directory"), notes := [], archive := [], st := st }
  else
    match bw.globMd with
    | none =>
      { err := some (B "failed to find markdown files"), notes := [], archive := [], st := st }
    | some mdFiles =>
      if mdFiles.length = 0 then
        { err := some (B "no markdown files found"), notes := [], archive := [], st := st }
      else
        let notebookID := B "nb_" ++ generateMD5Hash notebookName
        let r := mdFiles.foldl (convertStep bw notebookID) ([], st)
        let p := packageNSX bw.pack r.2.c notebookName notebookID
        match p.1 with
        | some e =>
          { err := some (B "failed to package NSX: " ++ e), notes := r.1, archive := p.2,
            st := r.2 }
        | none => { err := none, notes := r.1, archive := p.2, st := r.2 }

/-- Every attachment of the table that was classified as an image (width 400)
has its payload in the processed-image list: bytes `b` of the registered size
and fingerprint, cached as `base64(b)`. -/
def ImagesCached (c : NSXConverter) : Prop :=
  ∀ e ∈ c.attachments, e.2.Width = 400 →
    ∃ b : GoString, e.2.MD5 = generateMD5Hash b ∧ e.2.Size = b.length ∧
      ({ MD5Hash := generateMD5Hash b, ImageDataB64 := base64Encode b } : ProcessedImage) ∈
        c.processedImages

/-- A packaging environment in which the two note files of `twoDocWorld` are
found and every operation succeeds. -/
def twoNotePackWorld : PackWorld where
  createFile := true
  glob := some [B "temp_nsx_output/note_YQ==", B "temp_nsx_output/note_Yg=="]
  readFile := fun _ => some (B "{}")
  zipCreate := fun _ _ => true
  zipWrite := fun _ _ => true

/-- A batch of two documents: `docs/a.md` without references, then `docs/b.md`
with one image reference to `pic.png`.  Every operation succeeds; the Markdown
conversion is taken to return its input. -/
def twoDocWorld : BatchWorld where
  w := picWorld
  removeAll := true
  mkdirAll := true
  globMd := some [B "docs/a.md", B "docs/b.md"]
  readMd := fun f => if f = B "docs/a.md" then some (B "first") else some (B "![alt](pic.png)")
  convert := fun s => some s
  rangeOrder := fun m => m
  marshal := fun _ => true
  writeFile := fun _ => true
  pack := twoNotePackWorld

/-- The attachment that a run in `picWorld` registers for `pic.png`. -/
def picAttachment : Attachment :=
  { MD5 := generateMD5Hash sampleBytes, Name := B "pic.png", Size := 8, Width := 400,
    Height := 300, MimeType := B "image/png", CTime := 1700000000,
    Ref := B "MTcwMDAwMDAwMHBpYy5wbmc=" }

/-- The note file that the batch of `twoDocWorld` with notebook name `nb` writes
for its second document `docs/b.md`. -/
def twoDocSecondNote : GoString × Note :=
  (B "note_Yg==",
   { Category := B "note", ParentID := B "nb_" ++ generateMD5Hash (B "nb"), Title := B "b",
     Thumb := some (B "file_cGljLnBuZzE3MDAwMDAwMDA="), MTime := 1700000000,
     CTime := 1700000000, Latitude := 0, Longitude := 0, Encrypt := false,
     Attachment := [(B "file_cGljLnBuZzE3MDAwMDAwMDA=", picAttachment)],
     Brief := (imageTag 400 (B "MTcwMDAwMDAwMHBpYy5wbmc=")).take 100 ++ B "...",
     Content := imageTag 400 (B "MTcwMDAwMDAwMHBpYy5wbmc="), Tag := [] })

/-- The note file that the batch of `twoDocWorld` with notebook name `nb` writes
for its first document `docs/a.md`. -/
def twoDocFirstNote : GoString × Note :=
  (B "note_YQ==",
   { Category := B "note", ParentID := B "nb_" ++ generateMD5Hash (B "nb"), Title := B "a",
     Thumb := none, MTime := 1700000000, CTime := 1700000000, Latitude := 0, Longitude := 0,
     Encrypt := false, Attachment := [], Brief := B "first", Content := B "first", Tag := [] })

/-- The bytes of a small file detected as `application/pdf`. -/
def pdfBytes : GoString := B "%PDF-1.4"

/-- A packaging environment in which the note file of `pdfDocWorld` is found
and every operation succeeds. -/
def oneNotePackWorld : PackWorld where
  createFile := true
  glob := some [B "temp_nsx_output/note_YQ=="]
  readFile := fun _ => some (B "{}")
  zipCreate := fun _ _ => true
  zipWrite := fun _ _ => true

/-- A batch of one document `docs/a.md` that links the existing file
`doc.pdf`, detected as `application/pdf`.  Every operation succeeds. -/
def pdfDocWorld : BatchWorld where
  w := { stat := fun p => p == B "doc.pdf", walk := fun _ => [],
         readFile := fun p => if p = B "doc.pdf" then some pdfBytes else none,
         detect := fun _ => B "application/pdf", clock := fun _ => 1700000000 }
  removeAll := true
  mkdirAll := true
  globMd := some [B "docs/a.md"]
  readMd := fun _ => some (B "[manual](doc.pdf)")
  convert := fun s => some s
  rangeOrder := fun m => m
  marshal := fun _ => true
  writeFile := fun _ => true
  pack := oneNotePackWorld

/-! ## Theorems -/

/-! ### The embedding on concrete inputs -/

theorem decimal_examples :
    decimal 1700000000 = B "1700000000" ∧ decimal (-42) = B "-42" ∧ decimal 0 = B "0" := by
  decide

theorem base64_examples :
    base64Encode (B "pic.png1700000000") = B "cGljLnBuZzE3MDAwMDAwMDA=" ∧
    base64Encode (B "ab") = B "YWI=" ∧ base64Encode (B "a") = B "YQ==" ∧
    base64Decode (B "cGljLnBuZzE3MDAwMDAwMDA=") = some (B "pic.png1700000000") ∧
    base64Decode (B "YQ==") = some (B "a") ∧ base64Decode (B "YQ=") = none := by
  decide

set_option maxRecDepth 100000 in
/-- The test vectors of RFC 1321 for the empty string and for `abc`. -/
theorem md5_test_vectors :
    generateMD5Hash (B "") = B "d41d8cd98f00b204e9800998ecf8427e" ∧
    generateMD5Hash (B "abc") = B "900150983cd24fb0d6963f7d28e17f72" := by
  decide

theorem filepathBase_examples :
    filepathBase (B "a/b/c.png") = B "c.png" ∧ filepathBase (B "a/b/") = B "b" ∧
    filepathBase (B "///") = B "/" ∧ filepathBase (B "") = B "." ∧ filepathBase (B "x") = B "x" := by
  decide

set_option maxRecDepth 100000 in
theorem batchConvert_example :
    (BatchConvert twoDocWorld (B "nb") { c := NewNSXConverter, clockReads := 0 }).err = none ∧
    (BatchConvert twoDocWorld (B "nb") { c := NewNSXConverter, clockReads := 0 }).notes.map
        (fun n => (n.1, n.2.Title, n.2.Thumb, n.2.Brief)) =
      [(B "note_YQ==", B "a", none, B "first"),
       (B "note_Yg==", B "b", some (B "file_cGljLnBuZzE3MDAwMDAwMDA="),
        (imageTag 400 (B "MTcwMDAwMDAwMHBpYy5wbmc=")).take 100 ++ B "...")] ∧
    (BatchConvert pdfDocWorld (B "nb") { c := NewNSXConverter, clockReads := 0 }).notes.map
        (fun n => (n.1, n.2.Content)) =
      [(B "note_YQ==", anchorTag (B "MTcwMDAwMDAwMGRvYy5wZGY=") (B "manual"))] := by
  decide

theorem imagePattern_example :
    imagePattern.findAllStringSubmatch (B "x ![a](b.png) y ![c](d.png \"t\")") =
      [[B "![a](b.png)", B "a", B "b.png", B ""],
       [B "![c](d.png \"t\")", B "c", B "d.png", B "t"]] := by
  decide

theorem linkPattern_example :
    linkPattern.findAllStringSubmatch (B "see [doc](a/b.docx) and [x](y.md)") =
      [[B "[doc](a/b.docx)", B "doc", B "a/b", B "docx"], [B "[x](y.md)", B "x", B "y", B "md"]] := by
  decide

theorem generateBrief_example :
    generateBriefFromMarkdown (B " a \t\n  b  ") = B "a b" := by
  decide

set_option maxRecDepth 100000 in
theorem processAttachments_example :
    processAttachments picWorld (B "a.md") (B "see ![alt](pic.png) here")
        { c := NewNSXConverter, clockReads := 0 } =
      ((B "see " ++ imageTag 400 (B "MTcwMDAwMDAwMHBpYy5wbmc=") ++ B " here", none),
       { c := { processedImages := [{ MD5Hash := generateMD5Hash sampleBytes,
                                      ImageDataB64 := base64Encode sampleBytes }],
                attachments := [(B "file_cGljLnBuZzE3MDAwMDAwMDA=",
                  { MD5 := generateMD5Hash sampleBytes, Name := B "pic.png", Size := 8,
                    Width := 400, Height := 300, MimeType := B "image/png", CTime := 1700000000,
                    Ref := B "MTcwMDAwMDAwMHBpYy5wbmc=" })] },
         clockReads := 1 }) := by
  decide

/-! ### Basic facts about the string functions -/

theorem hasPrefix_iff (s p : GoString) : hasPrefix s p = true ↔ p <+: s := by
  unfold hasPrefix
  exact List.isPrefixOf_iff_prefix

theorem contains_iff (s sub : GoString) : contains s sub = true ↔ sub <:+: s := by
  induction s with
  | nil =>
    simp only [contains, hasPrefix_iff]
    constructor
    · intro h; exact h.isInfix
    · intro h; rw [List.infix_nil] at h; subst h; exact List.prefix_refl _
  | cons c cs ih =>
    simp only [contains, Bool.or_eq_true, hasPrefix_iff, ih]
    rw [List.infix_cons_iff]

theorem contains_eq_false_iff (s sub : GoString) : contains s sub = false ↔ ¬ sub <:+: s := by
  rw [← contains_iff]; simp

theorem replaceGo_mem (old new : GoString) (x : Byte) :
    ∀ (s : GoString) (k : Nat), x ∈ replaceGo old new s k → x ∈ s ∨ x ∈ new := by
  intro s
  induction s with
  | nil => intro k h; simp [replaceGo] at h
  | cons c cs ih =>
    intro k h
    cases k with
    | succ k =>
      simp only [replaceGo] at h
      rcases ih k h with h | h
      · exact Or.inl (List.mem_cons_of_mem _ h)
      · exact Or.inr h
    | zero =>
      simp only [replaceGo] at h
      split at h
      · rcases List.mem_append.1 h with h | h
        · exact Or.inr h
        · rcases ih _ h with h | h
          · exact Or.inl (List.mem_cons_of_mem _ h)
          · exact Or.inr h
      · rcases List.mem_cons.1 h with h | h
        · exact Or.inl (h ▸ List.mem_cons_self _ _)
        · rcases ih _ h with h | h
          · exact Or.inl (List.mem_cons_of_mem _ h)
          · exact Or.inr h

theorem replaceAll_mem (s old new : GoString) (x : Byte) (h : x ∈ replaceAll s old new) :
    x ∈ s ∨ x ∈ new := by
  unfold replaceAll at h
  split at h
  · exact Or.inl h
  · exact replaceGo_mem _ _ _ _ _ h

theorem replaceGo_length_le (old new : GoString) (hn : new.length ≤ old.length) :
    ∀ (s : GoString) (k : Nat), (replaceGo old new s k).length ≤ s.length - k := by
  intro s
  induction s with
  | nil => intro k; simp [replaceGo]
  | cons c cs ih =>
    intro k
    cases k with
    | succ k =>
      simp only [replaceGo, List.length_cons]
      have := ih k
      omega
    | zero =>
      simp only [replaceGo]
      split
      · rename_i hp
        have hl : old.length ≤ (c :: cs).length := ((hasPrefix_iff _ _).1 hp).length_le
        have := ih (old.length - 1)
        simp only [List.length_append, List.length_cons] at *
        omega
      · have := ih 0
        simp only [List.length_cons] at *
        omega

theorem replaceGo_length_lt (old new : GoString) (hn : new.length < old.length) :
    ∀ (s : GoString), contains s old = true → (replaceGo old new s 0).length < s.length := by
  intro s
  induction s with
  | nil =>
    intro h
    simp only [contains, hasPrefix_iff] at h
    have := List.prefix_nil.1 h
    subst this
    simp at hn
  | cons c cs ih =>
    intro h
    simp only [replaceGo]
    split
    · rename_i hp
      have hl : old.length ≤ (c :: cs).length := ((hasPrefix_iff _ _).1 hp).length_le
      have := replaceGo_length_le old new (Nat.le_of_lt hn) cs (old.length - 1)
      simp only [List.length_append, List.length_cons] at *
      omega
    · rename_i hp
      simp only [contains, Bool.or_eq_true] at h
      rcases h with h | h
      · exact absurd h hp
      · have := ih h
        simp only [List.length_cons]
        omega

/-! ### The matcher against the language of an expression -/

theorem orElse_eq_some {α : Type} (a b : Option α) (x : α) (h : (a <|> b) = some x) :
    a = some x ∨ b = some x := by
  cases a with
  | none => right; simpa using h
  | some y => left; simpa using h

theorem orElse_isSome_left {α : Type} (a b : Option α) (h : a.isSome = true) :
    (a <|> b).isSome = true := by
  cases a with
  | none => simp at h
  | some y => simp

theorem orElse_isSome_right {α : Type} (a b : Option α) (h : b.isSome = true) :
    (a <|> b).isSome = true := by
  cases a with
  | none => simpa using h
  | some y => simp

theorem starLoop_sound (step : GoString → Caps → Cont → MatchResult) (L : GoString → Prop)
    (hs : StepSound step L) :
    ∀ (n : Nat) (s : GoString) (c : Caps) (k : Cont) (x : GoString × Caps),
      starLoop step n s c k = some x →
      ∃ us v c', s = List.flatten us ++ v ∧ (∀ y ∈ us, y ≠ [] ∧ L y) ∧ k v c' = some x := by
  intro n
  induction n with
  | zero =>
    intro s c k x h
    exact ⟨[], s, c, by simp, by simp, h⟩
  | succ n ih =>
    intro s c k x h
    simp only [starLoop] at h
    rcases orElse_eq_some _ _ _ h with h | h
    · obtain ⟨u, v, c', rfl, hu, hk⟩ := hs _ _ _ _ h
      split at hk
      · rename_i hlt
        obtain ⟨us, v', c'', rfl, hus, hk'⟩ := ih _ _ _ _ hk
        refine ⟨u :: us, v', c'', by simp, ?_, hk'⟩
        intro y hy
        rcases List.mem_cons.1 hy with rfl | hy
        · refine ⟨?_, hu⟩
          rintro rfl
          simp at hlt
        · exact hus y hy
      · simp at hk
    · exact ⟨[], s, c, by simp, by simp, h⟩

theorem lazyLoop_sound (step : GoString → Caps → Cont → MatchResult) (L : GoString → Prop)
    (hs : StepSound step L) :
    ∀ (n : Nat) (s : GoString) (c : Caps) (k : Cont) (x : GoString × Caps),
      lazyLoop step n s c k = some x →
      ∃ us v c', s = List.flatten us ++ v ∧ (∀ y ∈ us, y ≠ [] ∧ L y) ∧ k v c' = some x := by
  intro n
  induction n with
  | zero =>
    intro s c k x h
    exact ⟨[], s, c, by simp, by simp, h⟩
  | succ n ih =>
    intro s c k x h
    simp only [lazyLoop] at h
    rcases orElse_eq_some _ _ _ h with h | h
    · exact ⟨[], s, c, by simp, by simp, h⟩
    · obtain ⟨u, v, c', rfl, hu, hk⟩ := hs _ _ _ _ h
      split at hk
      · rename_i hlt
        obtain ⟨us, v', c'', rfl, hus, hk'⟩ := ih _ _ _ _ hk
        refine ⟨u :: us, v', c'', by simp, ?_, hk'⟩
        intro y hy
        rcases List.mem_cons.1 hy with rfl | hy
        · refine ⟨?_, hu⟩
          rintro rfl
          simp at hlt
        · exact hus y hy
      · simp at hk

/-- Soundness of the matcher: a successful run consumed a prefix that belongs to
the language of the expression, and the continuation succeeded on the rest. -/
theorem Re.run_sound : ∀ (r : Re), StepSound (fun s c k => r.run s c k) r.Matches := by
  intro r
  induction r with
  | byte p =>
    intro s c k x h
    cases s with
    | nil => simp [Re.run] at h
    | cons y ys =>
      simp only [Re.run] at h
      split at h
      · rename_i hp
        exact ⟨[y], ys, c, rfl, ⟨y, rfl, hp⟩, h⟩
      · simp at h
  | empty =>
    intro s c k x h
    exact ⟨[], s, c, rfl, rfl, h⟩
  | seq a b iha ihb =>
    intro s c k x h
    simp only [Re.run] at h
    obtain ⟨u1, v1, c1, rfl, hu1, h1⟩ := iha _ _ _ _ h
    obtain ⟨u2, v2, c2, rfl, hu2, h2⟩ := ihb _ _ _ _ h1
    exact ⟨u1 ++ u2, v2, c2, by simp, ⟨u1, u2, rfl, hu1, hu2⟩, h2⟩
  | alt a b iha ihb =>
    intro s c k x h
    simp only [Re.run] at h
    rcases orElse_eq_some _ _ _ h with h | h
    · obtain ⟨u, v, c', rfl, hu, hk⟩ := iha _ _ _ _ h
      exact ⟨u, v, c', rfl, Or.inl hu, hk⟩
    · obtain ⟨u, v, c', rfl, hu, hk⟩ := ihb _ _ _ _ h
      exact ⟨u, v, c', rfl, Or.inr hu, hk⟩
  | star a iha =>
    intro s c k x h
    simp only [Re.run] at h
    obtain ⟨us, v, c', rfl, hus, hk⟩ := starLoop_sound _ _ iha _ _ _ _ _ h
    exact ⟨us.flatten, v, c', rfl, ⟨us, rfl, hus⟩, hk⟩
  | lazyStar a iha =>
    intro s c k x h
    simp only [Re.run] at h
    obtain ⟨us, v, c', rfl, hus, hk⟩ := lazyLoop_sound _ _ iha _ _ _ _ _ h
    exact ⟨us.flatten, v, c', rfl, ⟨us, rfl, hus⟩, hk⟩
  | opt a iha =>
    intro s c k x h
    simp only [Re.run] at h
    rcases orElse_eq_some _ _ _ h with h | h
    · obtain ⟨u, v, c', rfl, hu, hk⟩ := iha _ _ _ _ h
      exact ⟨u, v, c', rfl, Or.inr hu, hk⟩
    · exact ⟨[], s, c, rfl, Or.inl rfl, h⟩
  | group i a iha =>
    intro s c k x h
    simp only [Re.run] at h
    obtain ⟨u, v, c', rfl, hu, hk⟩ := iha _ _ _ _ h
    exact ⟨u, v, _, rfl, hu, hk⟩

theorem starLoop_complete (step : GoString → Caps → Cont → MatchResult) (L : GoString → Prop)
    (hc : StepComplete step L) :
    ∀ (us : List GoString), (∀ y ∈ us, y ≠ [] ∧ L y) → ∀ (n : Nat) (v : GoString) (c : Caps)
      (k : Cont), (List.flatten us ++ v).length ≤ n → (∀ c', (k v c').isSome = true) →
      (starLoop step n (List.flatten us ++ v) c k).isSome = true := by
  intro us
  induction us with
  | nil =>
    intro _ n v c k _ hk
    cases n with
    | zero => simpa [starLoop] using hk c
    | succ n =>
      simp only [starLoop]
      exact orElse_isSome_right _ _ (by simpa using hk c)
  | cons u us ih =>
    intro hus n v c k hn hk
    have hu := hus u (List.mem_cons_self _ _)
    have hulen : 0 < u.length := List.length_pos.2 hu.1
    cases n with
    | zero =>
      simp only [List.flatten_cons, List.append_assoc, List.length_append] at hn
      omega
    | succ n =>
      simp only [starLoop]
      apply orElse_isSome_left
      have hrw : List.flatten (u :: us) ++ v = u ++ (List.flatten us ++ v) := by simp
      rw [hrw]
      apply hc u hu.2
      intro c'
      simp only [List.flatten_cons, List.append_assoc, List.length_append] at hn
      have hlt : (List.flatten us ++ v).length < (u ++ (List.flatten us ++ v)).length := by
        simp only [List.length_append]; omega
      rw [if_pos hlt]
      apply ih (fun y hy => hus y (List.mem_cons_of_mem _ hy)) n v c' k _ hk
      simp only [List.length_append]
      omega

theorem lazyLoop_complete (step : GoString → Caps → Cont → MatchResult) (L : GoString → Prop)
    (hc : StepComplete step L) :
    ∀ (us : List GoString), (∀ y ∈ us, y ≠ [] ∧ L y) → ∀ (n : Nat) (v : GoString) (c : Caps)
      (k : Cont), (List.flatten us ++ v).length ≤ n → (∀ c', (k v c').isSome = true) →
      (lazyLoop step n (List.flatten us ++ v) c k).isSome = true := by
  intro us
  induction us with
  | nil =>
    intro _ n v c k _ hk
    cases n with
    | zero => simpa [lazyLoop] using hk c
    | succ n =>
      simp only [lazyLoop]
      exact orElse_isSome_left _ _ (by simpa using hk c)
  | cons u us ih =>
    intro hus n v c k hn hk
    have hu := hus u (List.mem_cons_self _ _)
    have hulen : 0 < u.length := List.length_pos.2 hu.1
    cases n with
    | zero =>
      simp only [List.flatten_cons, List.append_assoc, List.length_append] at hn
      omega
    | succ n =>
      simp only [lazyLoop]
      apply orElse_isSome_right
      have hrw : List.flatten (u :: us) ++ v = u ++ (List.flatten us ++ v) := by simp
      rw [hrw]
      apply hc u hu.2
      intro c'
      simp only [List.flatten_cons, List.append_assoc, List.length_append] at hn
      have hlt : (List.flatten us ++ v).length < (u ++ (List.flatten us ++ v)).length := by
        simp only [List.length_append]; omega
      rw [if_pos hlt]
      apply ih (fun y hy => hus y (List.mem_cons_of_mem _ hy)) n v c' k _ hk
      simp only [List.length_append]
      omega

/-- Completeness of the matcher: when a prefix of the input belongs to the
language and the continuation accepts the rest, the run succeeds. -/
theorem Re.run_complete : ∀ (r : Re), StepComplete (fun s c k => r.run s c k) r.Matches := by
  intro r
  induction r with
  | byte p =>
    rintro u ⟨x, rfl, hp⟩ v c k hk
    simp only [List.singleton_append, Re.run, hp, if_true]
    exact hk c
  | empty =>
    rintro u rfl v c k hk
    simpa [Re.run] using hk c
  | seq a b iha ihb =>
    rintro u ⟨u1, u2, rfl, h1, h2⟩ v c k hk
    simp only [Re.run, List.append_assoc]
    apply iha u1 h1
    intro c'
    exact ihb u2 h2 v c' k hk
  | alt a b iha ihb =>
    rintro u (h | h) v c k hk
    · simp only [Re.run]
      exact orElse_isSome_left _ _ (iha u h v c k hk)
    · simp only [Re.run]
      exact orElse_isSome_right _ _ (ihb u h v c k hk)
  | star a iha =>
    rintro u ⟨us, rfl, hus⟩ v c k hk
    simp only [Re.run]
    exact starLoop_complete _ _ iha us hus _ v c k (Nat.le_refl _) hk
  | lazyStar a iha =>
    rintro u ⟨us, rfl, hus⟩ v c k hk
    simp only [Re.run]
    exact lazyLoop_complete _ _ iha us hus _ v c k (Nat.le_refl _) hk
  | opt a iha =>
    rintro u (rfl | h) v c k hk
    · simp only [Re.run, List.nil_append]
      exact orElse_isSome_right _ _ (hk c)
    · simp only [Re.run]
      exact orElse_isSome_left _ _ (iha u h v c k hk)
  | group i a iha =>
    rintro u h v c k hk
    simp only [Re.run]
    apply iha u h
    intro c'
    exact hk _

theorem Re.matches_litBytes (bs u : GoString) :
    (bs.foldr (fun b r => Re.seq (.byte (fun x => x == b)) r) .empty).Matches u ↔ u = bs := by
  induction bs generalizing u with
  | nil => simp [Re.Matches]
  | cons b bs ih =>
    simp only [List.foldr, Re.Matches, ih]
    constructor
    · rintro ⟨u1, u2, rfl, ⟨x, rfl, hx⟩, rfl⟩
      have : x = b := by simpa using hx
      subst this
      rfl
    · rintro rfl
      exact ⟨[b], bs, rfl, ⟨b, rfl, by simp⟩, rfl⟩

theorem Re.matches_lit (s : String) (u : GoString) : (Re.lit s).Matches u ↔ u = B s :=
  Re.matches_litBytes _ _

theorem Re.matches_ch (c : Char) (u : GoString) :
    (Re.ch c).Matches u ↔ u = [Fin.ofNat c.toNat] := by
  simp only [Re.ch, Re.Matches]
  constructor
  · rintro ⟨x, rfl, hx⟩
    have : x = Fin.ofNat c.toNat := by simpa using hx
    subst this
    rfl
  · rintro rfl
    exact ⟨_, rfl, by simp⟩

theorem Re.matches_star_notGt (u : GoString) :
    (Re.star Re.notGt).Matches u ↔ (0x3E : Byte) ∉ u := by
  simp only [Re.notGt, Re.Matches]
  constructor
  · rintro ⟨us, rfl, hus⟩ hmem
    obtain ⟨l, hl, hx⟩ := List.mem_flatten.1 hmem
    obtain ⟨-, y, rfl, hy⟩ := hus l hl
    have : (0x3E : Byte) = y := List.mem_singleton.1 hx
    subst this
    simp at hy
  · intro h
    refine ⟨u.map (fun y => [y]), ?_, ?_⟩
    · induction u with
      | nil => rfl
      | cons y ys ih =>
        have := ih (fun hm => h (List.mem_cons_of_mem _ hm))
        simp only [List.map_cons, List.flatten_cons, List.singleton_append]
        rw [← this]
    · intro x hx
      obtain ⟨y, hy, rfl⟩ := List.mem_map.1 hx
      refine ⟨by simp, y, rfl, ?_⟩
      have : y ≠ 0x3E := fun e => h (e ▸ hy)
      simpa using this

/-- The language of `checkboxPattern`: the checkbox input tags. -/
theorem checkboxPattern_matches (u : GoString) :
    checkboxPattern.re.Matches u ↔
      ∃ a b, (0x3E : Byte) ∉ a ∧ (0x3E : Byte) ∉ b ∧ u = checkboxTag a b := by
  have hgt : B ">" = [Fin.ofNat '>'.toNat] := by decide
  simp only [checkboxPattern, Re.cat, List.foldr]
  constructor
  · intro h
    obtain ⟨u1, r1, rfl, h1, h⟩ := h
    obtain ⟨u2, r2, rfl, h2, h⟩ := h
    obtain ⟨u3, r3, rfl, h3, h⟩ := h
    obtain ⟨u4, r4, rfl, h4, h⟩ := h
    obtain ⟨u5, r5, rfl, h5, h⟩ := h
    have h6 : r5 = [] := h
    subst h6
    rw [Re.matches_lit] at h1 h3
    rw [Re.matches_star_notGt] at h2 h4
    rw [Re.matches_ch] at h5
    subst h1 h3 h5
    refine ⟨u2, u4, h2, h4, ?_⟩
    simp [checkboxTag, hgt]
  · rintro ⟨a, b, ha, hb, rfl⟩
    refine ⟨B "<input", a ++ B "type=\"checkbox\"" ++ b ++ B ">", by simp [checkboxTag],
      (Re.matches_lit _ _).2 rfl, ?_⟩
    refine ⟨a, B "type=\"checkbox\"" ++ b ++ B ">", by simp, (Re.matches_star_notGt _).2 ha, ?_⟩
    refine ⟨B "type=\"checkbox\"", b ++ B ">", by simp, (Re.matches_lit _ _).2 rfl, ?_⟩
    refine ⟨b, B ">", rfl, (Re.matches_star_notGt _).2 hb, ?_⟩
    exact ⟨B ">", [], by simp, (Re.matches_ch _ _).2 hgt, rfl⟩

/-! ### Scanning for matches -/

theorem Regexp.matchAt_none (p : Regexp) (s : GoString)
    (h : ∀ u, p.re.Matches u → ¬ u <+: s) : p.matchAt s = none := by
  unfold Regexp.matchAt
  cases hr : p.re.run s (List.replicate (p.numGroups + 1) none) (fun s' c' => some (s', c')) with
  | none => rfl
  | some x =>
    obtain ⟨u, v, c', rfl, hu, -⟩ := Re.run_sound p.re _ _ _ _ hr
    exact absurd (List.prefix_append u v) (h u hu)

theorem Regexp.matchAt_unique (p : Regexp) (u v : GoString) (hu : p.re.Matches u)
    (huniq : ∀ u' v', p.re.Matches u' → u' ++ v' = u ++ v → u' = u) :
    ∃ gs, p.matchAt (u ++ v) = some (v, u :: gs) := by
  unfold Regexp.matchAt
  have hsome := Re.run_complete p.re u hu v (List.replicate (p.numGroups + 1) none)
    (fun s' c' => some (s', c')) (fun _ => rfl)
  cases hr : p.re.run (u ++ v) (List.replicate (p.numGroups + 1) none)
      (fun s' c' => some (s', c')) with
  | none => simp only at hsome; rw [hr] at hsome; simp at hsome
  | some x =>
    obtain ⟨u', v', c', he, hu', hk⟩ := Re.run_sound p.re _ _ _ _ hr
    have h1 : u' = u := huniq u' v' hu' he.symm
    subst h1
    have h2 : v' = v := (List.append_cancel_left he).symm
    subst h2
    simp only [Option.some.injEq] at hk
    subst hk
    exact ⟨(c'.drop 1).map (fun g => g.getD []), by simp⟩

theorem Regexp.findAllAux_none (p : Regexp) :
    ∀ (n : Nat) (s : GoString), (∀ u, p.re.Matches u → ¬ u <:+: s) → p.findAllAux n s = [] := by
  intro n
  induction n with
  | zero => intro s _; rfl
  | succ n ih =>
    intro s h
    simp only [Regexp.findAllAux]
    rw [p.matchAt_none s (fun u hu hp => h u hu hp.isInfix)]
    cases s with
    | nil => rfl
    | cons c cs =>
      exact ih cs (fun u hu hi => h u hu (hi.trans (List.suffix_cons c cs).isInfix))

theorem Regexp.findAllAux_some (p : Regexp) (n : Nat) (s rest : GoString) (m : List GoString)
    (h : p.matchAt s = some (rest, m)) (hlt : rest.length < s.length) :
    p.findAllAux (n + 1) s = m :: p.findAllAux n rest := by
  simp only [Regexp.findAllAux, h, if_pos hlt]

theorem Regexp.findAllAux_skip (p : Regexp) (n : Nat) (s : GoString) :
    ∀ (pre : GoString),
      (∀ p1 p2, pre = p1 ++ p2 → p2 ≠ [] → ∀ u, p.re.Matches u → ¬ u <+: p2 ++ s) →
      p.findAllAux (pre.length + n) (pre ++ s) = p.findAllAux n s := by
  intro pre
  induction pre with
  | nil => intro _; simp
  | cons c cs ih =>
    intro h
    have h0 := p.matchAt_none (c :: cs ++ s) (h [] (c :: cs) rfl (by simp))
    have hlen : (c :: cs).length + n = (cs.length + n) + 1 := by simp; omega
    rw [hlen]
    simp only [Regexp.findAllAux, h0, List.cons_append]
    simp only [List.cons_append] at h0
    rw [h0]
    exact ih (fun p1 p2 he hne => h (c :: p1) p2 (by rw [he]; rfl) hne)

/-- A word whose first byte does not occur again in it cannot overlap itself. -/
theorem no_overlap (a : Byte) (w' p rest : GoString) (ha : a ∉ w')
    (h : a :: w' <+: p ++ (a :: w' ++ rest)) : p = [] ∨ a :: w' <+: p := by
  cases p with
  | nil => exact Or.inl rfl
  | cons c p0 =>
    right
    by_cases hl : (a :: w').length ≤ (c :: p0).length
    · exact List.prefix_of_prefix_length_le h (List.prefix_append _ _) hl
    · exfalso
      have hp : c :: p0 <+: a :: w' :=
        List.prefix_of_prefix_length_le (List.prefix_append _ _) h (by omega)
      obtain ⟨q, hq⟩ := hp
      obtain ⟨z, hz⟩ := h
      rw [← hq] at hz
      have hz2 : q ++ z = c :: p0 ++ q ++ rest := by
        have : (c :: p0) ++ (q ++ z) = (c :: p0) ++ (c :: p0 ++ q ++ rest) := by
          simpa using hz
        exact List.append_cancel_left this
      have hc : c = a := by
        have := hq
        simp only [List.cons_append, List.cons.injEq] at this
        exact this.1
      have hw : w' = p0 ++ q := by
        have := hq
        simp only [List.cons_append, List.cons.injEq] at this
        exact this.2.symm
      cases q with
      | nil =>
        apply hl
        rw [← hq]
        simp
      | cons d q0 =>
        simp only [List.cons_append, List.cons.injEq] at hz2
        apply ha
        rw [hw, ← hc, ← hz2.1]
        simp

theorem replaceGo_skip (old new : GoString) :
    ∀ (x y : GoString), replaceGo old new (x ++ y) x.length = replaceGo old new y 0 := by
  intro x
  induction x with
  | nil => intro y; rfl
  | cons c cs ih =>
    intro y
    simp only [List.cons_append, List.length_cons, replaceGo]
    exact ih y

theorem replaceGo_none (old new : GoString) :
    ∀ (s : GoString), ¬ old <:+: s → replaceGo old new s 0 = s := by
  intro s
  induction s with
  | nil => intro _; rfl
  | cons c cs ih =>
    intro h
    have h1 : hasPrefix (c :: cs) old = false := by
      rw [Bool.eq_false_iff]
      intro hp
      exact h ((hasPrefix_iff _ _).1 hp).isInfix
    simp only [replaceGo, h1]
    rw [ih (fun hi => h (hi.trans (List.suffix_cons c cs).isInfix))]
    simp

theorem replaceGo_pre (old new s : GoString) :
    ∀ (pre : GoString), (∀ p1 p2, pre = p1 ++ p2 → p2 ≠ [] → ¬ old <+: p2 ++ s) →
      replaceGo old new (pre ++ s) 0 = pre ++ replaceGo old new s 0 := by
  intro pre
  induction pre with
  | nil => intro _; rfl
  | cons c cs ih =>
    intro h
    have h1 : hasPrefix (c :: (cs ++ s)) old = false := by
      rw [Bool.eq_false_iff]
      intro hp
      exact h [] (c :: cs) rfl (by simp) ((hasPrefix_iff _ _).1 hp)
    rw [List.cons_append, replaceGo, h1,
      ih (fun p1 p2 he hne => h (c :: p1) p2 (by rw [he]; rfl) hne)]
    simp

theorem replaceGo_hit (old new s : GoString) (hne : old ≠ []) :
    replaceGo old new (old ++ s) 0 = new ++ replaceGo old new s 0 := by
  cases old with
  | nil => exact absurd rfl hne
  | cons c cs =>
    have h1 : hasPrefix (c :: (cs ++ s)) (c :: cs) = true :=
      (hasPrefix_iff _ _).2 ⟨s, rfl⟩
    rw [List.cons_append, replaceGo, h1, if_pos rfl, List.length_cons, Nat.add_sub_cancel,
      replaceGo_skip]

/-- `strings.ReplaceAll` on a text in which `old` occurs exactly once. -/
theorem replaceAll_once (pre old post new : GoString) (hne : old ≠ [])
    (hpre : ∀ p1 p2, pre = p1 ++ p2 → p2 ≠ [] → ¬ old <+: p2 ++ (old ++ post))
    (hpost : ¬ old <:+: post) :
    replaceAll (pre ++ old ++ post) old new = pre ++ new ++ post := by
  have h : replaceAll (pre ++ old ++ post) old new = replaceGo old new (pre ++ old ++ post) 0 := by
    cases old with
    | nil => exact absurd rfl hne
    | cons c cs => rfl
  rw [h, List.append_assoc, replaceGo_pre old new _ pre hpre, replaceGo_hit old new post hne,
    replaceGo_none old new post hpost]
  simp

/-! ### Checkbox substitution -/

theorem until_byte_unique (g : Byte) :
    ∀ (x x' v v' : GoString), g ∉ x → g ∉ x' → x ++ g :: v = x' ++ g :: v' → x = x' := by
  intro x
  induction x with
  | nil =>
    intro x' v v' _ hx' h
    cases x' with
    | nil => rfl
    | cons c cs =>
      simp only [List.nil_append, List.cons_append, List.cons.injEq] at h
      exact absurd (h.1 ▸ List.mem_cons_self _ _) hx'
  | cons c cs ih =>
    intro x' v v' hx hx' h
    cases x' with
    | nil =>
      simp only [List.nil_append, List.cons_append, List.cons.injEq] at h
      exact absurd (h.1 ▸ List.mem_cons_self _ _) hx
    | cons d ds =>
      simp only [List.cons_append, List.cons.injEq] at h
      rw [h.1, ih ds v v' (fun hm => hx (List.mem_cons_of_mem _ hm))
        (fun hm => hx' (List.mem_cons_of_mem _ hm)) h.2]

theorem checkboxTag_eq_input (a b : GoString) :
    checkboxTag a b = (0x3C : Byte) :: B "input" ++ (a ++ B "type=\"checkbox\"" ++ b ++ B ">") := by
  have : B "<input" = (0x3C : Byte) :: B "input" := by decide
  simp [checkboxTag, this]

theorem checkboxTag_eq_gt (a b : GoString) :
    checkboxTag a b = (B "<input" ++ a ++ B "type=\"checkbox\"" ++ b) ++ [(0x3E : Byte)] := by
  have : B ">" = [(0x3E : Byte)] := by decide
  simp [checkboxTag, this]

theorem checkboxTag_body_no_gt (a b : GoString) (ha : (0x3E : Byte) ∉ a) (hb : (0x3E : Byte) ∉ b) :
    (0x3E : Byte) ∉ B "<input" ++ a ++ B "type=\"checkbox\"" ++ b := by
  have h1 : (0x3E : Byte) ∉ B "<input" := by decide
  have h2 : (0x3E : Byte) ∉ B "type=\"checkbox\"" := by decide
  simp only [List.mem_append, not_or]
  exact ⟨⟨⟨h1, ha⟩, h2⟩, hb⟩

theorem checkboxTag_ne_nil (a b : GoString) : checkboxTag a b ≠ [] := by
  rw [checkboxTag_eq_input]; simp

theorem input_infix_checkboxTag (a b : GoString) : B "<input" <:+: checkboxTag a b := by
  refine ⟨[], a ++ B "type=\"checkbox\"" ++ b ++ B ">", ?_⟩
  simp [checkboxTag]

/-- In front of a checkbox tag that follows text without `<input`, nothing that
starts with `<input` begins before the tag itself. -/
theorem no_tag_before (pre a b a' b' rest z : GoString) (hpre : ¬ B "<input" <:+: pre)
    (p1 p2 : GoString) (he : pre = p1 ++ p2) (hne : p2 ≠ [])
    (h : checkboxTag a' b' ++ z <+: p2 ++ (checkboxTag a b ++ rest)) : False := by
  have hw : (0x3C : Byte) :: B "input" <+: p2 ++ ((0x3C : Byte) :: B "input" ++
      (a ++ B "type=\"checkbox\"" ++ b ++ B ">" ++ rest)) := by
    have h1 : (0x3C : Byte) :: B "input" <+: checkboxTag a' b' ++ z := by
      rw [checkboxTag_eq_input]
      exact ⟨a' ++ B "type=\"checkbox\"" ++ b' ++ B ">" ++ z, by simp⟩
    have h2 := h1.trans h
    rw [checkboxTag_eq_input] at h2
    simpa using h2
  rcases no_overlap _ _ _ _ (by decide) hw with h0 | h0
  · exact hne h0
  · apply hpre
    have : B "<input" = (0x3C : Byte) :: B "input" := by decide
    rw [this, he]
    exact h0.isInfix.trans (List.suffix_append p1 p2).isInfix

/-- C7. A text `pre ++ t ++ post` with one checkbox input tag `t`
(`<input` a `type="checkbox"` b `>`, no `>` in a or b) and no `<input` in `pre`
or `post` becomes `pre ++ W ++ post`, where `W` is the checked widget when `t`
contains `checked=""` and the unchecked widget otherwise; `pre` and `post`,
with any plain text "checked" in them, are unchanged.  A text that contains no
checkbox input tag at all is returned unchanged. -/
theorem processTodoLists_checkbox :
    (∀ pre a b post : GoString, (0x3E : Byte) ∉ a → (0x3E : Byte) ∉ b →
      ¬ B "<input" <:+: pre → ¬ B "<input" <:+: post →
      processTodoLists (pre ++ checkboxTag a b ++ post) =
        pre ++ (if contains (checkboxTag a b) (B "checked=\"\"") then htmlCheckboxChecked
          else htmlCheckboxUnchecked) ++ post) ∧
    (∀ html : GoString,
      (∀ a b : GoString, (0x3E : Byte) ∉ a → (0x3E : Byte) ∉ b → ¬ checkboxTag a b <:+: html) →
      processTodoLists html = html) := by
  constructor
  · intro pre a b post ha hb hpre hpost
    have hpostu : ∀ u, checkboxPattern.re.Matches u → ¬ u <:+: post := by
      intro u hu hi
      obtain ⟨a', b', -, -, rfl⟩ := (checkboxPattern_matches u).1 hu
      exact hpost ((input_infix_checkboxTag a' b').trans hi)
    have hskip : ∀ p1 p2, pre = p1 ++ p2 → p2 ≠ [] → ∀ u, checkboxPattern.re.Matches u →
        ¬ u <+: p2 ++ (checkboxTag a b ++ post) := by
      intro p1 p2 he hne u hu hp
      obtain ⟨a', b', -, -, rfl⟩ := (checkboxPattern_matches u).1 hu
      exact no_tag_before pre a b a' b' post [] hpre p1 p2 he hne (by simpa using hp)
    have hm : checkboxPattern.re.Matches (checkboxTag a b) :=
      (checkboxPattern_matches _).2 ⟨a, b, ha, hb, rfl⟩
    obtain ⟨gs, hgs⟩ := checkboxPattern.matchAt_unique (checkboxTag a b) post hm (by
      intro u' v' hu' he
      obtain ⟨a', b', ha', hb', rfl⟩ := (checkboxPattern_matches u').1 hu'
      rw [checkboxTag_eq_gt a' b', checkboxTag_eq_gt a b] at he ⊢
      have he' : (B "<input" ++ a' ++ B "type=\"checkbox\"" ++ b') ++ (0x3E : Byte) :: v' =
          (B "<input" ++ a ++ B "type=\"checkbox\"" ++ b) ++ (0x3E : Byte) :: post := by
        simpa using he
      rw [until_byte_unique (0x3E : Byte) _ _ v' post (checkboxTag_body_no_gt a' b' ha' hb')
        (checkboxTag_body_no_gt a b ha hb) he'])
    have hfind : checkboxPattern.findAllString (pre ++ checkboxTag a b ++ post) =
        [checkboxTag a b] := by
      unfold Regexp.findAllString Regexp.findAllStringSubmatch
      have hlen : (pre ++ checkboxTag a b ++ post).length + 1 =
          pre.length + ((checkboxTag a b ++ post).length + 1) := by
        simp only [List.length_append]; omega
      rw [hlen, List.append_assoc, checkboxPattern.findAllAux_skip _ _ pre hskip]
      have hlt : post.length < (checkboxTag a b ++ post).length := by
        have := List.length_pos.2 (checkboxTag_ne_nil a b)
        simp only [List.length_append]; omega
      rw [checkboxPattern.findAllAux_some _ _ _ _ hgs hlt,
        checkboxPattern.findAllAux_none _ post hpostu]
      rfl
    have hrep : ∀ new, replaceAll (pre ++ checkboxTag a b ++ post) (checkboxTag a b) new =
        pre ++ new ++ post := by
      intro new
      apply replaceAll_once _ _ _ _ (checkboxTag_ne_nil a b)
      · intro p1 p2 he hne hp
        exact no_tag_before pre a b a b post [] hpre p1 p2 he hne (by simpa using hp)
      · intro hi
        exact hpost ((input_infix_checkboxTag a b).trans hi)
    unfold processTodoLists
    rw [hfind]
    simp only [List.foldl]
    split
    · exact hrep _
    · exact hrep _
  · intro html h
    have hnone : ∀ u, checkboxPattern.re.Matches u → ¬ u <:+: html := by
      intro u hu
      obtain ⟨a, b, ha, hb, rfl⟩ := (checkboxPattern_matches u).1 hu
      exact h a b ha hb
    unfold processTodoLists Regexp.findAllString Regexp.findAllStringSubmatch
    rw [checkboxPattern.findAllAux_none _ html hnone]
    rfl

set_option maxRecDepth 100000 in
theorem processTodoLists_checkbox_witness :
    processTodoLists (B "<li>checked " ++ checkboxTag (B " disabled=\"\" ") (B " /") ++
        B " not checked</li>") =
      B "<li>checked " ++ htmlCheckboxUnchecked ++ B " not checked</li>" ∧
    processTodoLists (B "<li>" ++ checkboxTag (B " checked=\"\" ") (B " /") ++ B " a</li>") =
      B "<li>" ++ htmlCheckboxChecked ++ B " a</li>" ∧
    processTodoLists (B "<p>checked</p>") = B "<p>checked</p>" :=
  ⟨(processTodoLists_checkbox.1 (B "<li>checked ") (B " disabled=\"\" ") (B " /")
      (B " not checked</li>") (by decide) (by decide) (by decide) (by decide)).trans (by decide),
   (processTodoLists_checkbox.1 (B "<li>") (B " checked=\"\" ") (B " /")
      (B " a</li>") (by decide) (by decide) (by decide) (by decide)).trans (by decide),
   by decide⟩

/-! ### Encodings -/

theorem b64Index_b64Char : ∀ n, n < 64 → b64Index (b64Char n) = some n := by decide

theorem b64Char_not_newline :
    ∀ n, n < 64 → ((b64Char n != 0x0A && b64Char n != 0x0D) = true) := by decide

theorem b64Index_pad : b64Index 0x3D = none := by decide

theorem byte_ofNat_val (a : Byte) (n : Nat) (h : n % 256 = a.val) : (Fin.ofNat n : Byte) = a := by
  apply Fin.ext
  simpa [Fin.ofNat] using h

theorem base64Encode_no_newline :
    ∀ (b : GoString), ∀ x ∈ base64Encode b, (x != 0x0A && x != 0x0D) = true
  | [], x, hx => by simp [base64Encode] at hx
  | [a], x, hx => by
    have ha := a.isLt
    simp only [base64Encode, List.mem_cons, List.mem_singleton, List.not_mem_nil, or_false] at hx
    rcases hx with rfl | rfl | rfl | rfl
    · exact b64Char_not_newline _ (by omega)
    · exact b64Char_not_newline _ (by omega)
    · decide
    · decide
  | [a, b], x, hx => by
    have ha := a.isLt
    have hb := b.isLt
    simp only [base64Encode, List.mem_cons, List.mem_singleton, List.not_mem_nil, or_false] at hx
    rcases hx with rfl | rfl | rfl | rfl
    · exact b64Char_not_newline _ (by omega)
    · exact b64Char_not_newline _ (by omega)
    · exact b64Char_not_newline _ (by omega)
    · decide
  | a :: b :: c :: rest, x, hx => by
    have ha := a.isLt
    have hb := b.isLt
    have hc := c.isLt
    simp only [base64Encode, List.mem_cons] at hx
    rcases hx with rfl | rfl | rfl | rfl | hx
    · exact b64Char_not_newline _ (by omega)
    · exact b64Char_not_newline _ (by omega)
    · exact b64Char_not_newline _ (by omega)
    · exact b64Char_not_newline _ (by omega)
    · exact base64Encode_no_newline rest x hx

theorem base64DecodeAux_encode :
    ∀ (b : GoString) (fuel : Nat), b.length / 3 + 1 ≤ fuel →
      base64DecodeAux fuel (base64Encode b) = some b
  | [], fuel, h => by
    cases fuel with
    | zero => omega
    | succ f => rfl
  | [a], fuel, h => by
    have ha := a.isLt
    cases fuel with
    | zero => omega
    | succ f =>
      simp only [base64Encode, base64DecodeAux, b64Index_b64Char _ (show a.val / 4 < 64 by omega),
        b64Index_b64Char _ (show a.val % 4 * 16 < 64 by omega), b64Index_pad]
      simp only [and_self, if_true, Option.some.injEq, List.cons.injEq, and_true]
      exact byte_ofNat_val a _ (by omega)
  | [a, b], fuel, h => by
    have ha := a.isLt
    have hb := b.isLt
    cases fuel with
    | zero => omega
    | succ f =>
      simp only [base64Encode, base64DecodeAux, b64Index_b64Char _ (show a.val / 4 < 64 by omega),
        b64Index_b64Char _ (show a.val % 4 * 16 + b.val / 16 < 64 by omega),
        b64Index_b64Char _ (show b.val % 16 * 4 < 64 by omega), b64Index_pad]
      simp only [and_self, if_true, Option.some.injEq, List.cons.injEq, and_true]
      exact ⟨byte_ofNat_val a _ (by omega), byte_ofNat_val b _ (by omega)⟩
  | a :: b :: c :: rest, fuel, h => by
    have ha := a.isLt
    have hb := b.isLt
    have hc := c.isLt
    cases fuel with
    | zero => omega
    | succ f =>
      have ih := base64DecodeAux_encode rest f (by
        simp only [List.length_cons] at h
        omega)
      simp only [base64Encode, base64DecodeAux, b64Index_b64Char _ (show a.val / 4 < 64 by omega),
        b64Index_b64Char _ (show a.val % 4 * 16 + b.val / 16 < 64 by omega),
        b64Index_b64Char _ (show b.val % 16 * 4 + c.val / 64 < 64 by omega),
        b64Index_b64Char _ (show c.val % 64 < 64 by omega), ih]
      simp only [Option.some.injEq, List.cons.injEq, and_true]
      exact ⟨byte_ofNat_val a _ (by omega), byte_ofNat_val b _ (by omega),
        byte_ofNat_val c _ (by omega)⟩

theorem base64Encode_length : ∀ (b : GoString), b.length / 3 ≤ (base64Encode b).length
  | [] => by simp
  | [_] => by simp [base64Encode]
  | [_, _] => by simp [base64Encode]
  | _ :: _ :: _ :: rest => by
    have := base64Encode_length rest
    simp only [base64Encode, List.length_cons]
    omega

/-- Decoding the base64 encoding of a byte sequence succeeds and gives the
sequence back. -/
theorem base64Decode_encode (b : GoString) : base64Decode (base64Encode b) = some b := by
  unfold base64Decode
  have hf : (base64Encode b).filter (fun x => x != 0x0A && x != 0x0D) = base64Encode b :=
    List.filter_eq_self.2 (base64Encode_no_newline b)
  simp only [hf]
  apply base64DecodeAux_encode
  have := base64Encode_length b
  omega

theorem base64Encode_injective (x y : GoString) (h : base64Encode x = base64Encode y) : x = y := by
  have hx := base64Decode_encode x
  rw [h, base64Decode_encode y] at hx
  exact (Option.some.inj hx).symm

theorem natDigitsAux_spec :
    ∀ (fuel n : Nat) (acc : GoString), 0 < fuel → n < 10 ^ fuel →
      ∃ ds, natDigitsAux fuel n acc = ds ++ acc ∧ ds ≠ [] ∧ (∀ d ∈ ds, 48 ≤ d.val) ∧
        digitsValue ds = n := by
  intro fuel
  induction fuel with
  | zero =>
    intro n acc h0 _
    omega
  | succ f ih =>
    intro n acc _ h
    have hd : (Fin.ofNat (48 + n % 10) : Byte).val = 48 + n % 10 := by
      simp only [Fin.ofNat]
      omega
    simp only [natDigitsAux]
    split
    · rename_i h0
      refine ⟨[Fin.ofNat (48 + n % 10)], rfl, by simp, ?_, ?_⟩
      · intro d hd'
        rw [List.mem_singleton.1 hd', hd]
        omega
      · simp only [digitsValue, List.foldl, hd]
        omega
    · rename_i h0
      have hlt : n / 10 < 10 ^ f := by
        rw [Nat.pow_succ] at h
        omega
      have hf : 0 < f := by
        rcases Nat.eq_zero_or_pos f with hz | hz
        · subst hz
          simp only [Nat.zero_add, Nat.pow_one] at h
          omega
        · exact hz
      obtain ⟨ds, hds, -, hdig, hval⟩ := ih (n / 10) (Fin.ofNat (48 + n % 10) :: acc) hf hlt
      refine ⟨ds ++ [Fin.ofNat (48 + n % 10)], by rw [hds]; simp, by simp, ?_, ?_⟩
      · intro d hd'
        rcases List.mem_append.1 hd' with hd' | hd'
        · exact hdig d hd'
        · rw [List.mem_singleton.1 hd', hd]
          omega
      · unfold digitsValue at hval ⊢
        rw [List.foldl_append, hval]
        simp only [List.foldl, hd]
        omega

theorem decimalNat_spec (n : Nat) :
    decimalNat n ≠ [] ∧ (∀ d ∈ decimalNat n, 48 ≤ d.val) ∧ digitsValue (decimalNat n) = n := by
  have hlt : n < 10 ^ (n + 1) :=
    Nat.lt_of_lt_of_le (Nat.lt_pow_self (by decide) n) (Nat.pow_le_pow_right (by decide) (by omega))
  obtain ⟨ds, hds, hne, hdig, hval⟩ := natDigitsAux_spec (n + 1) n [] (Nat.succ_pos n) hlt
  unfold decimalNat
  rw [hds, List.append_nil]
  exact ⟨hne, hdig, hval⟩

/-- The decimal representation tells integers apart. -/
theorem decimal_injective (i j : Int) (h : decimal i = decimal j) : i = j := by
  have hneg : ∀ (n m : Nat), (0x2D : Byte) :: decimalNat n ≠ decimalNat m := by
    intro n m he
    have := (decimalNat_spec m).2.1 0x2D (he ▸ List.mem_cons_self _ _)
    exact absurd this (by decide)
  have hinj : ∀ (n m : Nat), decimalNat n = decimalNat m → n = m := by
    intro n m he
    rw [← (decimalNat_spec n).2.2, he, (decimalNat_spec m).2.2]
  unfold decimal at h
  by_cases hi : i < 0 <;> by_cases hj : j < 0
  · rw [if_pos hi, if_pos hj] at h
    have := hinj _ _ (List.cons.inj h).2
    omega
  · rw [if_pos hi, if_neg hj] at h
    exact absurd h (hneg _ _)
  · rw [if_neg hi, if_pos hj] at h
    exact absurd h.symm (hneg _ _)
  · rw [if_neg hi, if_neg hj] at h
    have := hinj _ _ h
    omega

/-! ### Reference rewriting -/

theorem classifyImage_image (mimeType : GoString) : classifyImage (B "image") mimeType = true := by
  unfold classifyImage
  rw [if_pos rfl]

/-- C1, the failing input.  In `![alt](pic.png "title")` the whole text is one
match of `imagePattern` (alt `alt`, link `pic.png`, title `title`) and
`pic.png` resolves to a readable file.  `processAttachments` registers the
attachment and caches the image, yet returns the text unchanged: the span is
still there (the text searched for is `![title](pic.png)`). -/
theorem processAttachments_titled_image_kept :
    imagePattern.findAllStringSubmatch (B "![alt](pic.png \"title\")") =
      [[B "![alt](pic.png \"title\")", B "alt", B "pic.png", B "title"]] ∧
    findFile picWorld (B "a.md") (B "pic.png") = .ok (B "pic.png") ∧
    picWorld.readFile (B "pic.png") = some sampleBytes ∧
    (processAttachments picWorld (B "a.md") (B "![alt](pic.png \"title\")")
      { c := NewNSXConverter, clockReads := 0 }).1 = (B "![alt](pic.png \"title\")", none) ∧
    ((processAttachments picWorld (B "a.md") (B "![alt](pic.png \"title\")")
      { c := NewNSXConverter, clockReads := 0 }).2.c.attachments.map (fun e => e.1) =
        [B "file_cGljLnBuZzE3MDAwMDAwMDA="]) ∧
    (processAttachments picWorld (B "a.md") (B "![alt](pic.png \"title\")")
      { c := NewNSXConverter, clockReads := 0 }).2.c.processedImages.length = 1 := by
  refine ⟨by decide, rfl, rfl, by decide, by decide, by decide⟩

/-- C2. When `imagePattern` has exactly one match in the text, an untitled
span `![alt](link)`, `linkPattern` has none, and `link` resolves to the
readable file `path` with bytes `b`, then `processAttachments` returns the text
with every occurrence of the span replaced by the placeholder tag
`<img class="syno-notestation-image-object"
src="webman/3rdparty/NoteStation/images/transparent.gif" border="0" width="400"
ref="R" adjust="true"/>`, whose reference token `R` is `base64(decimal(t) ++ f)`,
where `f` is the base name of `path` and `t` the clock reading; it sets the
entry `"file_" ++ base64(f ++ decimal(t))` of the attachment table to an
attachment of width 400, height 300, size `|b|` and fingerprint `md5(b)`, and
appends one `ProcessedImage` with `md5(b)` and `base64(b)`. -/
theorem processAttachments_single_image (w : World) (mdFile text alt link path b : GoString)
    (st : RunState)
    (himg : imagePattern.findAllStringSubmatch text =
      [[B "![" ++ alt ++ B "](" ++ link ++ B ")", alt, link, []]])
    (hlink : linkPattern.findAllStringSubmatch text = [])
    (hfind : findFile w mdFile link = .ok path)
    (hread : w.readFile path = some b) :
    processAttachments w mdFile text st =
      ((replaceAll text (B "![" ++ alt ++ B "](" ++ link ++ B ")")
          (B ("<img class=\"syno-notestation-image-object\" " ++
              "src=\"webman/3rdparty/NoteStation/images/transparent.gif\" " ++
              "border=\"0\" width=\"400\" ref=\"") ++
            base64Encode (decimal (w.clock st.clockReads) ++ filepathBase path) ++
            B "\" adjust=\"true\"/>"),
        none),
       { c :=
          { processedImages := st.c.processedImages ++
              [{ MD5Hash := generateMD5Hash b, ImageDataB64 := base64Encode b }],
            attachments := mapSet st.c.attachments
              (B "file_" ++ base64Encode (filepathBase path ++ decimal (w.clock st.clockReads)))
              { MD5 := generateMD5Hash b, Name := filepathBase path, Size := b.length,
                Width := 400, Height := 300, MimeType := w.detect b,
                CTime := w.clock st.clockReads,
                Ref := base64Encode (decimal (w.clock st.clockReads) ++ filepathBase path) } },
         clockReads := st.clockReads + 1 }) := by
  have hlit : B ("<img class=\"syno-notestation-image-object\" " ++
      "src=\"webman/3rdparty/NoteStation/images/transparent.gif\" border=\"0\" width=\"") ++
        decimal 400 ++ B "\" ref=\"" =
      B ("<img class=\"syno-notestation-image-object\" " ++
         "src=\"webman/3rdparty/NoteStation/images/transparent.gif\" " ++
         "border=\"0\" width=\"400\" ref=\"") := by decide
  have htag : ∀ r : GoString, imageTag 400 r =
      B ("<img class=\"syno-notestation-image-object\" " ++
         "src=\"webman/3rdparty/NoteStation/images/transparent.gif\" " ++
         "border=\"0\" width=\"400\" ref=\"") ++ r ++ B "\" adjust=\"true\"/>" := by
    intro r
    unfold imageTag
    rw [hlit]
  rw [← htag]
  unfold processAttachments
  simp only [himg, hlink, List.foldl, processImageMatch, processAttachment]
  simp [hfind, hread, classifyImage_image]

set_option maxRecDepth 100000 in
theorem processAttachments_single_image_witness :
    imagePattern.findAllStringSubmatch (B "see ![alt](pic.png) here") =
      [[B "![" ++ B "alt" ++ B "](" ++ B "pic.png" ++ B ")", B "alt", B "pic.png", []]] ∧
    linkPattern.findAllStringSubmatch (B "see ![alt](pic.png) here") = [] ∧
    findFile picWorld (B "a.md") (B "pic.png") = .ok (B "pic.png") ∧
    picWorld.readFile (B "pic.png") = some sampleBytes ∧
    processAttachments picWorld (B "a.md") (B "see ![alt](pic.png) here")
        { c := NewNSXConverter, clockReads := 0 } =
      ((B ("see <img class=\"syno-notestation-image-object\" " ++
           "src=\"webman/3rdparty/NoteStation/images/transparent.gif\" " ++
           "border=\"0\" width=\"400\" ref=\"MTcwMDAwMDAwMHBpYy5wbmc=\" " ++
           "adjust=\"true\"/> here"),
        none),
       { c :=
          { processedImages :=
              [{ MD5Hash := B "e9dd2797018cad79186e03e8c5aec8dc",
                 ImageDataB64 := B "iVBORw0KGgo=" }],
            attachments :=
              [(B "file_cGljLnBuZzE3MDAwMDAwMDA=",
                { MD5 := B "e9dd2797018cad79186e03e8c5aec8dc", Name := B "pic.png", Size := 8,
                  Width := 400, Height := 300, MimeType := B "image/png",
                  CTime := 1700000000, Ref := B "MTcwMDAwMDAwMHBpYy5wbmc=" })] },
         clockReads := 1 }) ∧
    processAttachments picWorld (B "a.md") (B "see ![alt](pic.png) here")
        { c := NewNSXConverter, clockReads := 0 } =
      ((replaceAll (B "see ![alt](pic.png) here")
          (B "![" ++ B "alt" ++ B "](" ++ B "pic.png" ++ B ")")
          (B ("<img class=\"syno-notestation-image-object\" " ++
              "src=\"webman/3rdparty/NoteStation/images/transparent.gif\" " ++
              "border=\"0\" width=\"400\" ref=\"") ++
            base64Encode (decimal (picWorld.clock 0) ++ filepathBase (B "pic.png")) ++
            B "\" adjust=\"true\"/>"),
        none),
       { c :=
          { processedImages := NewNSXConverter.processedImages ++
              [{ MD5Hash := generateMD5Hash sampleBytes, ImageDataB64 := base64Encode sampleBytes }],
            attachments := mapSet NewNSXConverter.attachments
              (B "file_" ++ base64Encode (filepathBase (B "pic.png") ++ decimal (picWorld.clock 0)))
              { MD5 := generateMD5Hash sampleBytes, Name := filepathBase (B "pic.png"),
                Size := sampleBytes.length,
                Width := 400, Height := 300, MimeType := picWorld.detect sampleBytes,
                CTime := picWorld.clock 0,
                Ref := base64Encode (decimal (picWorld.clock 0) ++ filepathBase (B "pic.png")) } },
         clockReads := 0 + 1 }) :=
  ⟨by decide, by decide, rfl, rfl, by decide,
    processAttachments_single_image picWorld (B "a.md")
      (B "see ![alt](pic.png) here") (B "alt") (B "pic.png") (B "pic.png") sampleBytes
      { c := NewNSXConverter, clockReads := 0 } (by decide) (by decide) rfl rfl⟩

/-- The state after a call of `processAttachment` whose link resolves to the
readable file `path` with bytes `b`. -/
theorem processAttachment_resolved (w : World)
    (mdFile matchType altText link content path b : GoString) (st : RunState)
    (hfind : findFile w mdFile link = .ok path) (hread : w.readFile path = some b) :
    (processAttachment w mdFile matchType altText link content st).2.2 =
      { c :=
          { processedImages :=
              if classifyImage matchType (w.detect b) = true then
                st.c.processedImages ++
                  [{ MD5Hash := generateMD5Hash b, ImageDataB64 := base64Encode b }]
              else st.c.processedImages,
            attachments := mapSet st.c.attachments
              (B "file_" ++ base64Encode (filepathBase path ++ decimal (w.clock st.clockReads)))
              { MD5 := generateMD5Hash b, Name := filepathBase path, Size := b.length,
                Width := if classifyImage matchType (w.detect b) = true then 400 else 0,
                Height := if classifyImage matchType (w.detect b) = true then 300 else 0,
                MimeType := w.detect b, CTime := w.clock st.clockReads,
                Ref := base64Encode (decimal (w.clock st.clockReads) ++ filepathBase path) } },
        clockReads := st.clockReads + 1 } := by
  simp [processAttachment, hfind, hread]

theorem zipAdd_mono (pw : PackWorld) (zw : ZipWriter) (name : GoString) (data : Payload)
    (e : ZipEntry) (he : e ∈ zw.entries) : e ∈ (zipAdd pw zw name data).2.entries := by
  unfold zipAdd
  split
  · exact he
  · split
    · exact List.mem_append_left _ he
    · exact List.mem_append_left _ he

theorem zipAdd_written (pw : PackWorld) (zw : ZipWriter) (name : GoString) (data : Payload)
    (hc : pw.zipCreate zw.creates name = true) (hw : pw.zipWrite zw.creates name = true) :
    zipAdd pw zw name data =
      (.written, { entries := zw.entries ++ [{ name := name, content := some data }],
                   creates := zw.creates + 1 }) := by
  simp [zipAdd, hc, hw]

theorem packImage_mono (pw : PackWorld) (zw : ZipWriter) (img : ProcessedImage)
    (e : ZipEntry) (he : e ∈ zw.entries) : e ∈ (packImage pw zw img).entries := by
  unfold packImage
  split
  · exact he
  · exact zipAdd_mono pw zw _ _ e he

theorem foldl_packImage_mono (pw : PackWorld) (e : ZipEntry) :
    ∀ (imgs : List ProcessedImage) (zw : ZipWriter), e ∈ zw.entries →
      e ∈ (imgs.foldl (packImage pw) zw).entries := by
  intro imgs
  induction imgs with
  | nil => intro zw he; exact he
  | cons img imgs ih =>
    intro zw he
    exact ih _ (packImage_mono pw zw img e he)

/-- What the loop over the note files and the loop over the processed images
wrote is in the archive that `packageNSX` leaves, whatever it returns. -/
theorem packageNSX_keeps_images (pw : PackWorld) (c : NSXConverter)
    (notebookName notebookID : GoString) (noteFiles : List GoString)
    (hfile : pw.createFile = true) (hglob : pw.glob = some noteFiles) (e : ZipEntry)
    (he : e ∈ (c.processedImages.foldl (packImage pw)
      (noteFiles.foldl (packNote pw) ([], { entries := [], creates := 0 })).2).entries) :
    e ∈ (packageNSX pw c notebookName notebookID).2 := by
  unfold packageNSX
  simp only [hfile, hglob, Bool.not_true, Bool.false_eq_true, if_false]
  have h1 := zipAdd_mono pw _ notebookID
    (.notebook { Category := B "notebook", ParentID := B "", Title := notebookName }) e he
  split
  · rename_i zw1 heq
    rw [heq] at h1
    exact h1
  · rename_i zw1 heq
    rw [heq] at h1
    exact h1
  · rename_i zw1 heq
    rw [heq] at h1
    have h2 := zipAdd_mono pw zw1 (B "config.json")
      (.config { Note := (noteFiles.foldl (packNote pw) ([], { entries := [], creates := 0 })).1,
                 Notebook := [notebookID] }) e h1
    split
    · rename_i zw2 heq2
      rw [heq2] at h2
      exact h2
    · rename_i zw2 heq2
      rw [heq2] at h2
      exact h2
    · rename_i zw2 heq2
      rw [heq2] at h2
      exact h2

/-- C9. When `processAttachment` classifies the file with bytes `b` as an image,
it appends one `ProcessedImage` whose payload base64-decodes to exactly `b`;
`packageNSX` (its archive created, the entry for that name created and written)
then leaves a member named `"file_" ++ md5(b)` holding `b`; and the fingerprint
of these bytes is the `MD5` field of the attachment registered in the same
step. -/
theorem image_member_roundtrip (w : World) (pw : PackWorld)
    (mdFile matchType altText link content path b notebookName notebookID : GoString)
    (st : RunState) (noteFiles : List GoString)
    (hfind : findFile w mdFile link = .ok path) (hread : w.readFile path = some b)
    (himage : classifyImage matchType (w.detect b) = true)
    (hfile : pw.createFile = true) (hglob : pw.glob = some noteFiles)
    (hcreate : ∀ n, pw.zipCreate n (B "file_" ++ generateMD5Hash b) = true)
    (hwrite : ∀ n, pw.zipWrite n (B "file_" ++ generateMD5Hash b) = true) :
    ∃ (att : Attachment) (img : ProcessedImage),
      (processAttachment w mdFile matchType altText link content st).2.2.c.attachments =
        mapSet st.c.attachments
          (B "file_" ++ base64Encode (filepathBase path ++ decimal (w.clock st.clockReads))) att ∧
      (processAttachment w mdFile matchType altText link content st).2.2.c.processedImages =
        st.c.processedImages ++ [img] ∧
      base64Decode img.ImageDataB64 = some b ∧
      { name := B "file_" ++ generateMD5Hash b, content := some (.bytes b) } ∈
        (packageNSX pw (processAttachment w mdFile matchType altText link content st).2.2.c
          notebookName notebookID).2 ∧
      generateMD5Hash b = att.MD5 := by
  rw [processAttachment_resolved w mdFile matchType altText link content path b st hfind hread]
  simp only [himage, if_true]
  refine ⟨_, _, rfl, rfl, base64Decode_encode b, ?_, rfl⟩
  apply packageNSX_keeps_images pw _ notebookName notebookID noteFiles hfile hglob
  simp only [List.foldl_append, List.foldl_cons, List.foldl_nil]
  unfold packImage
  simp only [base64Decode_encode]
  rw [zipAdd_written pw _ _ _ (hcreate _) (hwrite _)]
  simp

set_option maxRecDepth 100000 in
theorem image_member_roundtrip_witness :
    findFile picWorld (B "a.md") (B "pic.png") = .ok (B "pic.png") ∧
    picWorld.readFile (B "pic.png") = some sampleBytes ∧
    classifyImage (B "image") (picWorld.detect sampleBytes) = true ∧
    (∃ (att : Attachment) (img : ProcessedImage),
      (processAttachment picWorld (B "a.md") (B "image") (B "alt") (B "pic.png")
          (B "![alt](pic.png)") { c := NewNSXConverter, clockReads := 0 }).2.2.c.attachments =
        mapSet NewNSXConverter.attachments
          (B "file_" ++ base64Encode (filepathBase (B "pic.png") ++ decimal (picWorld.clock 0)))
          att ∧
      (processAttachment picWorld (B "a.md") (B "image") (B "alt") (B "pic.png")
          (B "![alt](pic.png)") { c := NewNSXConverter, clockReads := 0 }).2.2.c.processedImages =
        NewNSXConverter.processedImages ++ [img] ∧
      base64Decode img.ImageDataB64 = some sampleBytes ∧
      { name := B "file_" ++ generateMD5Hash sampleBytes, content := some (.bytes sampleBytes) } ∈
        (packageNSX allGoodPackWorld
          (processAttachment picWorld (B "a.md") (B "image") (B "alt") (B "pic.png")
            (B "![alt](pic.png)") { c := NewNSXConverter, clockReads := 0 }).2.2.c
          (B "nb") (B "nb_1")).2 ∧
      generateMD5Hash sampleBytes = att.MD5) :=
  ⟨rfl, rfl, by decide,
    image_member_roundtrip picWorld allGoodPackWorld (B "a.md") (B "image") (B "alt") (B "pic.png")
      (B "![alt](pic.png)") (B "pic.png") sampleBytes (B "nb") (B "nb_1")
      { c := NewNSXConverter, clockReads := 0 } [] rfl rfl (by decide) rfl rfl
      (fun _ => rfl) (fun _ => rfl)⟩

theorem mapSet_of_not_mem (m : AttachmentMap) (k : GoString) (v : Attachment)
    (h : ∀ e ∈ m, e.1 ≠ k) : mapSet m k v = m ++ [(k, v)] := by
  unfold mapSet
  have : m.any (fun e => e.1 == k) = false := by
    rw [List.any_eq_false]
    intro e he
    simpa using h e he
  simp [this]

theorem foldl_processImageMatch_calls (w : World) (mdFile : GoString) :
    ∀ (ms : List (List GoString)) (acc : GoString × RunState),
      ms.foldl (processImageMatch w mdFile) acc =
        (ms.filterMap imageCall).foldl
          (fun r c => (processAttachment w mdFile c.1 c.2.1 c.2.2 r.1 r.2).2) acc := by
  intro ms
  induction ms with
  | nil => intro acc; rfl
  | cons m ms ih =>
    intro acc
    rw [List.foldl_cons, ih]
    by_cases hm : m.length ≥ 3
    · simp [processImageMatch, imageCall, hm, List.filterMap_cons]
    · simp [processImageMatch, imageCall, hm, List.filterMap_cons]

theorem foldl_processLinkMatch_calls (w : World) (mdFile : GoString) :
    ∀ (ms : List (List GoString)) (acc : GoString × RunState),
      ms.foldl (processLinkMatch w mdFile) acc =
        (ms.filterMap linkCall).foldl
          (fun r c => (processAttachment w mdFile c.1 c.2.1 c.2.2 r.1 r.2).2) acc := by
  intro ms
  induction ms with
  | nil => intro acc; rfl
  | cons m ms ih =>
    intro acc
    rw [List.foldl_cons, ih]
    by_cases hm : m.length ≥ 4
    · simp [processLinkMatch, linkCall, hm, List.filterMap_cons]
    · simp [processLinkMatch, linkCall, hm, List.filterMap_cons]

/-- `processAttachments` is the sequence of the calls of `processAttachment`
listed by `attachmentCalls`. -/
theorem processAttachments_eq_calls (w : World) (mdFile text : GoString) (st : RunState) :
    processAttachments w mdFile text st =
      ((((attachmentCalls text).foldl
          (fun r c => (processAttachment w mdFile c.1 c.2.1 c.2.2 r.1 r.2).2) (text, st)).1, none),
        ((attachmentCalls text).foldl
          (fun r c => (processAttachment w mdFile c.1 c.2.1 c.2.2 r.1 r.2).2) (text, st)).2) := by
  unfold processAttachments attachmentCalls
  simp only [foldl_processImageMatch_calls, foldl_processLinkMatch_calls, List.foldl_append]

theorem fileKey_injective (f : GoString) (t1 t2 : Int)
    (h : B "file_" ++ base64Encode (f ++ decimal t1) = B "file_" ++ base64Encode (f ++ decimal t2)) :
    t1 = t2 :=
  decimal_injective t1 t2
    (List.append_cancel_left (base64Encode_injective _ _ (List.append_cancel_left h)))

/-- C10, as stated, fails: two image spans reference the existing file
`pic.png`, both are processed (two clock readings, two cached payloads), and
with both readings equal to 1700000000 the attachment table holds a single
entry: the second registration has the name of the first. -/
theorem same_file_same_second_counterexample :
    attachmentCalls (B "![a](pic.png) ![b](pic.png)") =
      [(B "image", B "a", B "pic.png"), (B "image", B "b", B "pic.png")] ∧
    findFile picWorld (B "a.md") (B "pic.png") = .ok (B "pic.png") ∧
    (processAttachments picWorld (B "a.md") (B "![a](pic.png) ![b](pic.png)")
      { c := NewNSXConverter, clockReads := 0 }).2.clockReads = 2 ∧
    (processAttachments picWorld (B "a.md") (B "![a](pic.png) ![b](pic.png)")
      { c := NewNSXConverter, clockReads := 0 }).2.c.processedImages.length = 2 ∧
    (processAttachments picWorld (B "a.md") (B "![a](pic.png) ![b](pic.png)")
      { c := NewNSXConverter, clockReads := 0 }).2.c.attachments.map (fun e => e.1) =
        [B "file_cGljLnBuZzE3MDAwMDAwMDA="] := by
  refine ⟨by decide, rfl, by decide, by decide, by decide⟩

theorem mapSet_overwrite_last (m : AttachmentMap) (k : GoString) (v v' : Attachment)
    (h : ∀ e ∈ m, e.1 ≠ k) : mapSet (m ++ [(k, v)]) k v' = m ++ [(k, v')] := by
  unfold mapSet
  have hany : (m ++ [(k, v)]).any (fun e => e.1 == k) = true := by simp
  have hmap : m.map (fun e => if (e.1 == k) = true then (k, v') else e) = m := by
    have : ∀ e ∈ m, (fun e : GoString × Attachment => if (e.1 == k) = true then (k, v') else e) e
        = id e := by
      intro e he
      have := h e he
      simp [this]
    rw [List.map_congr_left this, List.map_id]
  rw [if_pos hany, List.map_append, hmap]
  simp

/-- C10, amended. When the text has two recognised spans and both resolve to
the same readable file, `processAttachments` processes the file twice (two
clock readings `t1`, `t2`) and registers two attachments with the fingerprint of
the file, under `"file_" ++ base64(f ++ decimal(t1))` and
`"file_" ++ base64(f ++ decimal(t2))`.  For every pair of distinct readings
these names are distinct and a table that had neither name gains two entries;
for equal readings the names are equal and such a table gains one entry. -/
theorem same_file_twice (w : World) (mdFile text path b : GoString) (st : RunState)
    (c1 c2 : GoString × GoString × GoString)
    (hcalls : attachmentCalls text = [c1, c2])
    (hf1 : findFile w mdFile c1.2.2 = .ok path) (hf2 : findFile w mdFile c2.2.2 = .ok path)
    (hread : w.readFile path = some b) :
    ∃ a1 a2 : Attachment,
      (processAttachments w mdFile text st).2.c.attachments =
        mapSet (mapSet st.c.attachments
          (B "file_" ++ base64Encode (filepathBase path ++ decimal (w.clock st.clockReads))) a1)
          (B "file_" ++ base64Encode (filepathBase path ++ decimal (w.clock (st.clockReads + 1))))
          a2 ∧
      a1.MD5 = generateMD5Hash b ∧ a2.MD5 = generateMD5Hash b ∧
      (processAttachments w mdFile text st).2.clockReads = st.clockReads + 2 ∧
      (w.clock st.clockReads ≠ w.clock (st.clockReads + 1) →
        B "file_" ++ base64Encode (filepathBase path ++ decimal (w.clock st.clockReads)) ≠
          B "file_" ++ base64Encode (filepathBase path ++ decimal (w.clock (st.clockReads + 1))) ∧
        ((∀ e ∈ st.c.attachments,
            e.1 ≠ B "file_" ++
              base64Encode (filepathBase path ++ decimal (w.clock st.clockReads)) ∧
            e.1 ≠ B "file_" ++
              base64Encode (filepathBase path ++ decimal (w.clock (st.clockReads + 1)))) →
          (processAttachments w mdFile text st).2.c.attachments.length =
            st.c.attachments.length + 2)) ∧
      (w.clock st.clockReads = w.clock (st.clockReads + 1) →
        ((∀ e ∈ st.c.attachments,
            e.1 ≠ B "file_" ++
              base64Encode (filepathBase path ++ decimal (w.clock st.clockReads))) →
          (processAttachments w mdFile text st).2.c.attachments.length =
            st.c.attachments.length + 1)) := by
  rw [processAttachments_eq_calls, hcalls]
  simp only [List.foldl_cons, List.foldl_nil]
  rw [processAttachment_resolved w mdFile c2.1 c2.2.1 c2.2.2 _ path b _ hf2 hread,
    processAttachment_resolved w mdFile c1.1 c1.2.1 c1.2.2 _ path b _ hf1 hread]
  refine ⟨_, _, rfl, rfl, rfl, rfl, ?_, ?_⟩
  · intro hclock
    have hne : B "file_" ++ base64Encode (filepathBase path ++ decimal (w.clock st.clockReads)) ≠
        B "file_" ++ base64Encode (filepathBase path ++ decimal (w.clock (st.clockReads + 1))) :=
      fun h => hclock (fileKey_injective _ _ _ h)
    refine ⟨hne, ?_⟩
    intro hfresh
    simp only
    rw [mapSet_of_not_mem _ _ _ (fun e he => (hfresh e he).1)]
    rw [mapSet_of_not_mem]
    · simp
    · intro e he
      rcases List.mem_append.1 he with he | he
      · exact (hfresh e he).2
      · rw [List.mem_singleton.1 he]
        exact hne
  · intro hclock hfresh
    simp only
    rw [← hclock, mapSet_of_not_mem _ _ _ hfresh, mapSet_overwrite_last _ _ _ _ hfresh]
    simp

set_option maxRecDepth 100000 in
theorem same_file_twice_witness :
    attachmentCalls (B "![a](pic.png) ![b](pic.png)") =
      [(B "image", B "a", B "pic.png"), (B "image", B "b", B "pic.png")] ∧
    findFile tickingWorld (B "a.md") (B "pic.png") = .ok (B "pic.png") ∧
    tickingWorld.readFile (B "pic.png") = some sampleBytes ∧
    tickingWorld.clock 0 ≠ tickingWorld.clock (0 + 1) ∧
    (processAttachments tickingWorld (B "a.md") (B "![a](pic.png) ![b](pic.png)")
      { c := NewNSXConverter, clockReads := 0 }).2.c.attachments.map (fun e => e.1) =
        [B "file_cGljLnBuZzE3MDAwMDAwMDA=", B "file_cGljLnBuZzE3MDAwMDAwMDE="] ∧
    (processAttachments tickingWorld (B "a.md") (B "![a](pic.png) ![b](pic.png)")
      { c := NewNSXConverter, clockReads := 0 }).2.c.attachments.length =
        NewNSXConverter.attachments.length + 2 :=
  ⟨by decide, rfl, rfl, by decide, by decide,
    (same_file_twice tickingWorld (B "a.md") (B "![a](pic.png) ![b](pic.png)") (B "pic.png")
      sampleBytes { c := NewNSXConverter, clockReads := 0 }
      (B "image", B "a", B "pic.png") (B "image", B "b", B "pic.png")
      (by decide) rfl rfl rfl).elim
      (fun _ h1 => h1.elim (fun _ h2 => (h2.2.2.2.2.1 (by decide)).2 (by decide)))⟩

/-- A reference that does not resolve to a readable file leaves the text and
the state as they were. -/
theorem processAttachment_unresolved (w : World) (mdFile matchType altText link content : GoString)
    (st : RunState) (h : ∀ path, findFile w mdFile link = .ok path → w.readFile path = none) :
    (processAttachment w mdFile matchType altText link content st).2 = (content, st) := by
  unfold processAttachment
  cases hf : findFile w mdFile link with
  | error e => rfl
  | ok path =>
    simp only [h path hf]

theorem foldl_processImageMatch_unresolved (w : World) (mdFile : GoString) :
    ∀ (ms : List (List GoString)) (acc : GoString × RunState),
      (∀ m ∈ ms, ∀ path, findFile w mdFile (m.getD 2 []) = .ok path → w.readFile path = none) →
      ms.foldl (processImageMatch w mdFile) acc = acc := by
  intro ms
  induction ms with
  | nil => intro acc _; rfl
  | cons m ms ih =>
    intro acc h
    have h1 : processImageMatch w mdFile acc m = acc := by
      unfold processImageMatch
      split
      · exact processAttachment_unresolved w mdFile _ _ _ _ _ (h m (List.mem_cons_self _ _))
      · rfl
    rw [List.foldl_cons, h1]
    exact ih acc (fun m' hm' => h m' (List.mem_cons_of_mem _ hm'))

theorem foldl_processLinkMatch_unresolved (w : World) (mdFile : GoString) :
    ∀ (ms : List (List GoString)) (acc : GoString × RunState),
      (∀ m ∈ ms, ∀ path, findFile w mdFile (m.getD 2 [] ++ B "." ++ m.getD 3 []) = .ok path →
        w.readFile path = none) →
      ms.foldl (processLinkMatch w mdFile) acc = acc := by
  intro ms
  induction ms with
  | nil => intro acc _; rfl
  | cons m ms ih =>
    intro acc h
    have h1 : processLinkMatch w mdFile acc m = acc := by
      unfold processLinkMatch
      split
      · exact processAttachment_unresolved w mdFile _ _ _ _ _ (h m (List.mem_cons_self _ _))
      · rfl
    rw [List.foldl_cons, h1]
    exact ih acc (fun m' hm' => h m' (List.mem_cons_of_mem _ hm'))

/-- C3. When no recognised reference of the text resolves to a readable file
(there is no match at all, or for every match the lookup fails or the file it
yields cannot be read), `processAttachments` returns the text unchanged with no
error, and the converter (attachment table and processed-image list) is as it
was. -/
theorem processAttachments_unresolved (w : World) (mdFile text : GoString) (st : RunState)
    (himg : ∀ m ∈ imagePattern.findAllStringSubmatch text, ∀ path,
      findFile w mdFile (m.getD 2 []) = .ok path → w.readFile path = none)
    (hlink : ∀ m ∈ linkPattern.findAllStringSubmatch text, ∀ path,
      findFile w mdFile (m.getD 2 [] ++ B "." ++ m.getD 3 []) = .ok path →
        w.readFile path = none) :
    processAttachments w mdFile text st = ((text, none), st) := by
  unfold processAttachments
  simp only
  rw [foldl_processImageMatch_unresolved w mdFile _ _ himg,
    foldl_processLinkMatch_unresolved w mdFile _ _ hlink]

set_option maxRecDepth 100000 in
theorem processAttachments_unresolved_witness :
    imagePattern.findAllStringSubmatch (B "![a](missing.png) and [d](x.pdf)") =
      [[B "![a](missing.png)", B "a", B "missing.png", []]] ∧
    linkPattern.findAllStringSubmatch (B "![a](missing.png) and [d](x.pdf)") =
      [[B "[a](missing.png) and [d](x.pdf)", B "a", B "missing.png) and [d](x", B "pdf"]] ∧
    processAttachments loneWorld (B "docs/a.md") (B "![a](missing.png) and [d](x.pdf)")
        { c := NewNSXConverter, clockReads := 0 } =
      ((B "![a](missing.png) and [d](x.pdf)", none), { c := NewNSXConverter, clockReads := 0 }) :=
  ⟨by decide, by decide,
    processAttachments_unresolved loneWorld (B "docs/a.md")
      (B "![a](missing.png) and [d](x.pdf)") { c := NewNSXConverter, clockReads := 0 }
      (fun _ _ _ _ => rfl) (fun _ _ _ _ => rfl)⟩

/-- Without a failed entry in the walk, `findFile` never fails: when nothing
matches it returns the link it was given. -/
theorem findFile_no_match (w : World) (mdFile link : GoString) (hstat : w.stat link = false)
    (hwalk : ∀ e ∈ w.walk mdFile, e.failed = false ∧
      (e.isDir = true ∨ contains (filepathBase e.path) (filepathBase link) = false)) :
    findFile w mdFile link = .ok link := by
  have key : ∀ es : List WalkEntry, (∀ e ∈ es, e.failed = false ∧
      (e.isDir = true ∨ contains (filepathBase e.path) (filepathBase link) = false)) →
      walkFind link es = .ok none := by
    intro es
    induction es with
    | nil => intro _; rfl
    | cons e es ih =>
      intro h
      obtain ⟨h1, h2⟩ := h e (List.mem_cons_self _ _)
      have h3 : (!e.isDir && contains (filepathBase e.path) (filepathBase link)) = false := by
        rcases h2 with h2 | h2 <;> simp [h2]
      simp only [walkFind, h1, h3]
      exact ih (fun e' he' => h e' (List.mem_cons_of_mem _ he'))
  unfold findFile
  simp [hstat, key _ hwalk]

/-- C4, the failing input.  The link `missing.png` does not exist and the walk
of the directory of `docs/a.md` visits `docs` and `docs/a.md` only, neither a
file whose base name contains `missing.png`; `findFile` returns the path
`missing.png` and no error. -/
theorem findFile_missing_returns_link :
    loneWorld.stat (B "missing.png") = false ∧
    (loneWorld.walk (B "docs/a.md")).all (fun e =>
      e.isDir || !contains (filepathBase e.path) (filepathBase (B "missing.png"))) = true ∧
    findFile loneWorld (B "docs/a.md") (B "missing.png") = .ok (B "missing.png") := by
  refine ⟨rfl, by decide, rfl⟩

/-- C8, the failing input.  One note file was found and could not be read;
`packageNSX` returns no error, the manifest lists `note_YQ==`, and the archive
has no note member at all. -/
theorem packageNSX_lists_unwritten_note :
    (packageNSX unreadableNoteWorld NewNSXConverter (B "nb") (B "nb_1")).1 = none ∧
    manifestNotes (packageNSX unreadableNoteWorld NewNSXConverter (B "nb") (B "nb_1")).2 =
      [B "note_YQ=="] ∧
    (packageNSX unreadableNoteWorld NewNSXConverter (B "nb") (B "nb_1")).2.map (fun e => e.name) =
      [B "nb_1", B "config.json"] := by
  decide

/-! ### Excerpt generation -/

theorem B_two_spaces : B "  " = [0x20, 0x20] := by decide

theorem B_one_space : B " " = [0x20] := by decide

theorem B_dots : B "..." = [0x2E, 0x2E, 0x2E] := by decide

/-- The loop of `cleanBrief` exits through its condition within `length`
iterations: with that much fuel the result has no two consecutive spaces. -/
theorem collapseSpaces_done :
    ∀ (n : Nat) (s : GoString), s.length ≤ n → contains (collapseSpaces n s) (B "  ") = false := by
  intro n
  induction n with
  | zero =>
    intro s hs
    have : s = [] := List.length_eq_zero.1 (Nat.le_zero.1 hs)
    subst this
    decide
  | succ n ih =>
    intro s hs
    simp only [collapseSpaces]
    split
    · rename_i hc
      apply ih
      have hlt : (replaceGo (B "  ") (B " ") s 0).length < s.length :=
        replaceGo_length_lt _ _ (by decide) s hc
      have : replaceAll s (B "  ") (B " ") = replaceGo (B "  ") (B " ") s 0 := by
        rw [B_two_spaces]; rfl
      rw [this]
      omega
    · rename_i hc
      simpa using hc

/-- The loop of `cleanBrief` only removes bytes or puts in spaces. -/
theorem collapseSpaces_mem (x : Byte) :
    ∀ (n : Nat) (s : GoString), x ∈ collapseSpaces n s → x ∈ s ∨ x = 0x20 := by
  intro n
  induction n with
  | zero => intro s h; exact Or.inl h
  | succ n ih =>
    intro s h
    simp only [collapseSpaces] at h
    split at h
    · rcases ih _ h with h | h
      · rcases replaceAll_mem _ _ _ _ h with h | h
        · exact Or.inl h
        · rw [B_one_space] at h
          exact Or.inr (List.mem_singleton.1 h)
      · exact Or.inr h
    · exact Or.inl h

theorem briefReplacer_mem (x : Byte) (s : GoString) (h : x ∈ briefReplacer s) :
    x ≠ 0x09 ∧ x ≠ 0x0A ∧ x ≠ 0x0D := by
  unfold briefReplacer at h
  obtain ⟨b, -, rfl⟩ := List.mem_map.1 h
  split
  · decide
  · rename_i hb
    push_neg at hb
    exact ⟨hb.2.2, hb.1, hb.2.1⟩

theorem leadingWidth_eq_zero (encs : List GoString) (hne : ∀ e ∈ encs, e ≠ []) (s : GoString) :
    leadingWidth encs s = 0 ↔ ∀ e ∈ encs, ¬ e <+: s := by
  unfold leadingWidth
  split
  · rename_i e he
    have hmem : e ∈ encs := List.mem_of_find?_eq_some he
    have hp : e.isPrefixOf s = true := by simpa using List.find?_some he
    constructor
    · intro h0
      exact absurd (List.length_eq_zero.1 h0) (hne e hmem)
    · intro h
      exact absurd (List.isPrefixOf_iff_prefix.1 hp) (h e hmem)
  · rename_i he
    constructor
    · intro _ e hmem hp
      have := List.find?_eq_none.1 he e hmem
      exact this (by simpa using List.isPrefixOf_iff_prefix.2 hp)
    · intro _; rfl

theorem trimLeftAux_suffix (encs : List GoString) :
    ∀ (n : Nat) (s : GoString), trimLeftAux encs n s <:+ s := by
  intro n
  induction n with
  | zero => intro s; exact List.suffix_refl _
  | succ n ih =>
    intro s
    simp only [trimLeftAux]
    split
    · exact List.suffix_refl _
    · exact (ih _).trans (List.drop_suffix _ _)

/-- With `length` fuel the stripping stops because no white-space rune is left in front. -/
theorem trimLeftAux_done (encs : List GoString) :
    ∀ (n : Nat) (s : GoString), s.length ≤ n → leadingWidth encs (trimLeftAux encs n s) = 0 := by
  intro n
  induction n with
  | zero =>
    intro s hs
    have : s = [] := List.length_eq_zero.1 (Nat.le_zero.1 hs)
    subst this
    simp only [trimLeftAux]
    unfold leadingWidth
    split
    · rename_i e he
      have hp : e.isPrefixOf ([] : GoString) = true := by simpa using List.find?_some he
      have := List.prefix_nil.1 (List.isPrefixOf_iff_prefix.1 hp)
      subst this
      rfl
    · rfl
  | succ n ih =>
    intro s hs
    simp only [trimLeftAux]
    split
    · assumption
    · apply ih
      rw [List.length_drop]
      omega

theorem spaceEncodings_ne_nil : ∀ e ∈ spaceEncodings, e ≠ [] := by decide

theorem spaceEncodings_rev_ne_nil : ∀ e ∈ spaceEncodings.map List.reverse, e ≠ [] := by decide

theorem spaceEncodings_length : ∀ e ∈ spaceEncodings, e.length ≤ 3 := by decide

theorem spaceEncodings_last : ∀ e ∈ spaceEncodings, e.getLast? ≠ some 0x2E := by decide

theorem trimLeftSpace_suffix (s : GoString) : trimLeftSpace s <:+ s :=
  trimLeftAux_suffix _ _ _

theorem trimRightSpace_isPrefix (s : GoString) : trimRightSpace s <+: s := by
  have h := trimLeftAux_suffix (spaceEncodings.map List.reverse) s.length s.reverse
  unfold trimRightSpace
  rw [← List.reverse_suffix]
  simpa using h

theorem trimSpace_isInfix (s : GoString) : trimSpace s <:+: s :=
  (trimRightSpace_isPrefix _).isInfix.trans (trimLeftSpace_suffix s).isInfix

/-- The text returned by `strings.TrimSpace` starts with no white-space rune. -/
theorem trimSpace_no_leading (s : GoString) : ∀ e ∈ spaceEncodings, ¬ e <+: trimSpace s := by
  intro e he hp
  have h0 := trimLeftAux_done spaceEncodings s.length s (Nat.le_refl _)
  have h1 := (leadingWidth_eq_zero _ spaceEncodings_ne_nil _).1 h0 e he
  exact h1 (hp.trans (trimRightSpace_isPrefix _))

/-- The text returned by `strings.TrimSpace` ends with no white-space rune. -/
theorem trimSpace_no_trailing (s : GoString) : ∀ e ∈ spaceEncodings, ¬ e <:+ trimSpace s := by
  intro e he hs
  have h0 := trimLeftAux_done (spaceEncodings.map List.reverse) (trimLeftSpace s).length
    (trimLeftSpace s).reverse (by simp)
  have h1 := (leadingWidth_eq_zero _ spaceEncodings_rev_ne_nil _).1 h0 e.reverse
    (List.mem_map_of_mem _ he)
  apply h1
  have : (trimSpace s).reverse =
      trimLeftAux (spaceEncodings.map List.reverse) (trimLeftSpace s).length
        (trimLeftSpace s).reverse := by
    simp [trimSpace, trimRightSpace]
  rw [← this]
  exact List.reverse_prefix.2 hs

theorem chain_of_no_double :
    ∀ l : GoString, contains l [0x20, 0x20] = false →
      List.Chain' (fun a b : Byte => ¬ (a = 0x20 ∧ b = 0x20)) l
  | [], _ => List.chain'_nil
  | [_], _ => List.chain'_singleton _
  | a :: b :: l, h => by
    have h1 : (hasPrefix (a :: b :: l) [0x20, 0x20] || contains (b :: l) [0x20, 0x20]) = false := h
    rw [Bool.or_eq_false_iff] at h1
    refine List.chain'_cons.2 ⟨?_, chain_of_no_double (b :: l) h1.2⟩
    rintro ⟨rfl, rfl⟩
    have h2 : hasPrefix ((0x20 : Byte) :: 0x20 :: l) [0x20, 0x20] = true := by
      simp [hasPrefix, List.isPrefixOf]
    rw [h2] at h1
    exact absurd h1.1 (by decide)

theorem no_double_of_chain (l : GoString)
    (h : List.Chain' (fun a b : Byte => ¬ (a = 0x20 ∧ b = 0x20)) l) : ¬ [0x20, 0x20] <:+: l := by
  intro hinf
  have := List.Chain'.infix h hinf
  rw [List.chain'_pair] at this
  exact this ⟨rfl, rfl⟩

theorem cleanBrief_mem (s : GoString) (x : Byte) (h : x ∈ cleanBrief s) :
    x ≠ 0x09 ∧ x ≠ 0x0A ∧ x ≠ 0x0D := by
  have h1 : x ∈ collapseSpaces (briefReplacer s).length (briefReplacer s) :=
    (trimSpace_isInfix _).subset h
  rcases collapseSpaces_mem x _ _ h1 with h2 | h2
  · exact briefReplacer_mem x s h2
  · subst h2; decide

theorem cleanBrief_chain (s : GoString) :
    List.Chain' (fun a b : Byte => ¬ (a = 0x20 ∧ b = 0x20)) (cleanBrief s) := by
  have h := collapseSpaces_done (briefReplacer s).length (briefReplacer s) (Nat.le_refl _)
  rw [B_two_spaces] at h
  exact List.Chain'.infix (chain_of_no_double _ h) (trimSpace_isInfix _)

/-- C5. For every input `s`, `generateBriefFromMarkdown s` contains no tab, newline
or carriage return, contains no two consecutive spaces, and neither begins nor
ends with a white-space character (any rune of `unicode.IsSpace`). -/
theorem generateBrief_whitespace_normalised (s : GoString) :
    ((0x09 : Byte) ∉ generateBriefFromMarkdown s ∧ (0x0A : Byte) ∉ generateBriefFromMarkdown s ∧
      (0x0D : Byte) ∉ generateBriefFromMarkdown s) ∧
    ¬ [0x20, 0x20] <:+: generateBriefFromMarkdown s ∧
    ∀ e ∈ spaceEncodings,
      ¬ e <+: generateBriefFromMarkdown s ∧ ¬ e <:+ generateBriefFromMarkdown s := by
  have hmem : ∀ x ∈ generateBriefFromMarkdown s, x ≠ 0x09 ∧ x ≠ 0x0A ∧ x ≠ 0x0D := by
    intro x hx
    unfold generateBriefFromMarkdown at hx
    simp only at hx
    split at hx
    · rcases List.mem_append.1 hx with hx | hx
      · exact cleanBrief_mem s x (List.mem_of_mem_take hx)
      · rw [B_dots] at hx
        have : x = 0x2E := by simpa using hx
        subst this; decide
    · exact cleanBrief_mem s x hx
  refine ⟨⟨fun h => (hmem _ h).1 rfl, fun h => (hmem _ h).2.1 rfl, fun h => (hmem _ h).2.2 rfl⟩,
    ?_, ?_⟩
  · apply no_double_of_chain
    unfold generateBriefFromMarkdown
    simp only
    split
    · rw [B_dots]
      refine ((cleanBrief_chain s).take 100).append
        (by simp [List.chain'_cons, List.chain'_singleton]) ?_
      intro x _ y hy
      have : y = 0x2E := by simpa using hy.symm
      subst this
      rintro ⟨-, h2⟩
      exact absurd h2 (by decide)
    · exact cleanBrief_chain s
  · intro e he
    unfold generateBriefFromMarkdown
    simp only
    split
    · rename_i hlen
      constructor
      · intro hp
        have hlen2 : e.length ≤ (List.take 100 (cleanBrief s)).length := by
          have := spaceEncodings_length e he
          rw [List.length_take]
          omega
        have h1 : e <+: List.take 100 (cleanBrief s) :=
          List.prefix_of_prefix_length_le hp (List.prefix_append _ _) hlen2
        exact trimSpace_no_leading _ e he (h1.trans (List.take_prefix _ _))
      · intro hs
        have hne := spaceEncodings_ne_nil e he
        have h1 := hs.getLast hne
        have h2 : e.getLast? = some 0x2E := by
          rw [List.getLast?_eq_getLast _ hne, h1]
          simp [B_dots]
        exact spaceEncodings_last e he h2
    · exact ⟨trimSpace_no_leading _ e he, trimSpace_no_trailing _ e he⟩

/-- C6, as stated, fails: an input of 102 characters (`a`, one hundred spaces, `b`)
is longer than 100 characters, yet the excerpt is the 3 characters `a b`, not
100 characters followed by `...`. -/
theorem generateBrief_long_input_counterexample :
    (B "a" ++ List.replicate 100 (0x20 : Byte) ++ B "b").length = 102 ∧
    generateBriefFromMarkdown (B "a" ++ List.replicate 100 (0x20 : Byte) ++ B "b") = B "a b" := by
  decide

/-- C6, amended. When the cleaned text (`cleanBrief`: white space collapsed and
trimmed) of a single-byte-character (ASCII) input is longer than 100
characters, the excerpt is the first 100 characters of the cleaned text followed
by `...`: 103 characters in total, each a single byte. -/
theorem generateBrief_truncates (s : GoString) (hascii : ∀ b ∈ s, b.val < 128)
    (hlen : (cleanBrief s).length > 100) :
    generateBriefFromMarkdown s = (cleanBrief s).take 100 ++ B "..." ∧
    (generateBriefFromMarkdown s).length = 103 ∧
    ∀ b ∈ generateBriefFromMarkdown s, b.val < 128 := by
  have h1 : generateBriefFromMarkdown s = (cleanBrief s).take 100 ++ B "..." := by
    unfold generateBriefFromMarkdown
    simp only
    rw [if_pos hlen]
  have hclean : ∀ b ∈ cleanBrief s, b.val < 128 := by
    intro b hb
    have hb1 : b ∈ collapseSpaces (briefReplacer s).length (briefReplacer s) :=
      (trimSpace_isInfix _).subset hb
    rcases collapseSpaces_mem b _ _ hb1 with h2 | h2
    · unfold briefReplacer at h2
      obtain ⟨c, hc, rfl⟩ := List.mem_map.1 h2
      split
      · decide
      · exact hascii c hc
    · subst h2; decide
  refine ⟨h1, ?_, ?_⟩
  · rw [h1, List.length_append, List.length_take, B_dots]
    simp only [List.length_cons, List.length_nil]
    omega
  · intro b hb
    rw [h1] at hb
    rcases List.mem_append.1 hb with hb | hb
    · exact hclean b (List.mem_of_mem_take hb)
    · rw [B_dots] at hb
      have : b = 0x2E := by simpa using hb
      subst this; decide

set_option maxRecDepth 100000 in
theorem generateBrief_truncates_witness :
    (∀ b ∈ List.replicate 101 (0x61 : Byte), b.val < 128) ∧
    (cleanBrief (List.replicate 101 (0x61 : Byte))).length > 100 ∧
    (generateBriefFromMarkdown (List.replicate 101 (0x61 : Byte)) =
        (cleanBrief (List.replicate 101 (0x61 : Byte))).take 100 ++ B "..." ∧
      (generateBriefFromMarkdown (List.replicate 101 (0x61 : Byte))).length = 103 ∧
      ∀ b ∈ generateBriefFromMarkdown (List.replicate 101 (0x61 : Byte)), b.val < 128) :=
  ⟨by decide, by decide,
    generateBrief_truncates (List.replicate 101 (0x61 : Byte)) (by decide) (by decide)⟩

/-! ### Batch conversion -/

theorem processAttachments_no_error (w : World) (mdFile text : GoString) (st : RunState) :
    (processAttachments w mdFile text st).1.2 = none := rfl

theorem createNote_state (bw : BatchWorld) (title md parentID : GoString) (st : RunState) :
    (createNote bw title md parentID st).2 = { c := st.c, clockReads := st.clockReads + 1 } := by
  unfold createNote
  simp only
  split <;> rfl

theorem createNote_attachment (bw : BatchWorld) (title md parentID : GoString) (st : RunState)
    (note : Note) (tb : GoString) (h : (createNote bw title md parentID st).1 = some (note, tb)) :
    note.Attachment = st.c.attachments := by
  unfold createNote at h
  simp only at h
  split at h
  · simp at h
  · simp only [Option.some.injEq, Prod.mk.injEq] at h
    rw [← h.1]

/-- The note written for a document carries the table left by
`processAttachments` of that document. -/
theorem convertOne_note (bw : BatchWorld) (nb : GoString) (st : RunState) (f : GoString)
    (nf : GoString × Note) (h : (convertOne bw nb st f).1 = some nf) :
    ∃ content, bw.readMd f = some content ∧
      nf.2.Attachment = (processAttachments bw.w f content st).2.c.attachments := by
  unfold convertOne at h
  cases hr : bw.readMd f with
  | none => simp [hr] at h
  | some content =>
    refine ⟨content, rfl, ?_⟩
    simp only [hr, processAttachments_no_error] at h
    split at h
    · simp at h
    · rename_i note tb heq
      have hatt := createNote_attachment bw _ _ _ _ note tb heq
      split at h
      · simp at h
      · split at h
        · simp at h
        · simp only [Option.some.injEq] at h
          rw [← h]
          exact hatt

theorem foldl_convertStep_concat (bw : BatchWorld) (nb : GoString) (l : List GoString)
    (f : GoString) (acc : List (GoString × Note) × RunState) :
    (l ++ [f]).foldl (convertStep bw nb) acc = convertStep bw nb (l.foldl (convertStep bw nb) acc) f := by
  rw [List.foldl_append]
  rfl

theorem foldl_convertStep_notes (bw : BatchWorld) (nb : GoString) (st : RunState) :
    ∀ (files : List GoString), ∀ nf ∈ (files.foldl (convertStep bw nb) ([], st)).1,
      ∃ pre f post content, files = pre ++ f :: post ∧ bw.readMd f = some content ∧
        nf.2.Attachment =
          (processAttachments bw.w f content
            (pre.foldl (convertStep bw nb) ([], st)).2).2.c.attachments := by
  intro files
  induction files using List.reverseRecOn with
  | nil => intro nf h; simp at h
  | append_singleton l f ih =>
    intro nf h
    rw [foldl_convertStep_concat] at h
    unfold convertStep at h
    have hold : nf ∈ (l.foldl (convertStep bw nb) ([], st)).1 →
        ∃ pre f' post content, l ++ [f] = pre ++ f' :: post ∧ bw.readMd f' = some content ∧
          nf.2.Attachment =
            (processAttachments bw.w f' content
              (pre.foldl (convertStep bw nb) ([], st)).2).2.c.attachments := by
      intro hm
      obtain ⟨pre, f', post, content, hl, hread, hatt⟩ := ih nf hm
      exact ⟨pre, f', post ++ [f], content, by rw [hl]; simp, hread, hatt⟩
    split at h
    · exact hold h
    · rename_i nf' heq
      rcases List.mem_append.1 h with h | h
      · exact hold h
      · rw [List.mem_singleton.1 h]
        obtain ⟨content, hread, hatt⟩ := convertOne_note bw nb _ f nf' heq
        exact ⟨l, f, [], content, rfl, hread, hatt⟩

/-- C11, as stated, fails: in a batch of `docs/a.md` (no reference) and
`docs/b.md` (one image), both converted, the note of the first document carries
an empty attachment table, the note of the second the attachment of `pic.png`,
which is the table of the whole run. -/
theorem batch_first_note_counterexample :
    (BatchConvert twoDocWorld (B "nb") { c := NewNSXConverter, clockReads := 0 }).err = none ∧
    (BatchConvert twoDocWorld (B "nb") { c := NewNSXConverter, clockReads := 0 }).notes.map
        (fun n => (n.1, n.2.Attachment.map (fun e => e.1))) =
      [(B "note_YQ==", []), (B "note_Yg==", [B "file_cGljLnBuZzE3MDAwMDAwMDA="])] ∧
    (BatchConvert twoDocWorld (B "nb")
        { c := NewNSXConverter, clockReads := 0 }).st.c.attachments.map (fun e => e.1) =
      [B "file_cGljLnBuZzE3MDAwMDAwMDA="] := by
  decide

theorem convertStep_eq (bw : BatchWorld) (nb : GoString)
    (acc : List (GoString × Note) × RunState) (f : GoString) :
    convertStep bw nb acc f =
      (acc.1 ++ (convertOne bw nb acc.2 f).1.toList, (convertOne bw nb acc.2 f).2) := by
  unfold convertStep
  split <;> rename_i heq <;> simp [heq]

/-- The loop appends to the note files it was started with, and the state it
leaves does not depend on them. -/
theorem foldl_convertStep_acc (bw : BatchWorld) (nb : GoString) :
    ∀ (files : List GoString) (acc : List (GoString × Note)) (s : RunState),
      files.foldl (convertStep bw nb) (acc, s) =
        (acc ++ (files.foldl (convertStep bw nb) ([], s)).1,
          (files.foldl (convertStep bw nb) ([], s)).2) := by
  intro files
  induction files with
  | nil => intro acc s; simp
  | cons f fs ih =>
    intro acc s
    rw [List.foldl_cons, List.foldl_cons, convertStep_eq, convertStep_eq, ih,
      ih (([] : List (GoString × Note)) ++ _)]
    simp

/-- The state that the documents `pre ++ f :: post` leave is the state that
`post` leaves when started where `pre ++ [f]` ended. -/
theorem foldl_convertStep_split (bw : BatchWorld) (nb : GoString) (st : RunState)
    (pre post : List GoString) (f : GoString) :
    ((pre ++ f :: post).foldl (convertStep bw nb) ([], st)).2 =
      (post.foldl (convertStep bw nb)
        ([], ((pre ++ [f]).foldl (convertStep bw nb) ([], st)).2)).2 := by
  have h : pre ++ f :: post = (pre ++ [f]) ++ post := by simp
  rw [h, List.foldl_append, foldl_convertStep_acc bw nb post]

theorem createNote_fields (bw : BatchWorld) (title md parentID : GoString) (st : RunState)
    (note : Note) (tb : GoString) (h : (createNote bw title md parentID st).1 = some (note, tb)) :
    note.Title = title ∧ tb = base64Encode title := by
  unfold createNote at h
  simp only at h
  split at h
  · simp at h
  · simp only [Option.some.injEq, Prod.mk.injEq] at h
    rw [← h.1, ← h.2]
    exact ⟨rfl, rfl⟩

/-- The note file written for a document is named after the document and is
titled with its base name. -/
theorem convertOne_name (bw : BatchWorld) (nb : GoString) (st : RunState) (f : GoString)
    (nf : GoString × Note) (h : (convertOne bw nb st f).1 = some nf) :
    nf.2.Title =
        (if trimSuffix (filepathBase f) (B ".md") = [] then B "Untitled"
          else trimSuffix (filepathBase f) (B ".md")) ∧
      nf.1 = B "note_" ++ base64Encode nf.2.Title := by
  unfold convertOne at h
  cases hr : bw.readMd f with
  | none => simp [hr] at h
  | some content =>
    simp only [hr, processAttachments_no_error] at h
    split at h
    · simp at h
    · rename_i note tb heq
      obtain ⟨ht, hb⟩ := createNote_fields bw _ _ _ _ note tb heq
      split at h
      · simp at h
      · split at h
        · simp at h
        · simp only [Option.some.injEq] at h
          rw [← h]
          exact ⟨ht, by rw [hb, ht]⟩

/-- Every note file that the loop has written sits at the place of its
document: the note at index `i` is what the loop body yields for a document
`f`, the note files before it are those of the documents before `f`, and the
note files after it are those of the documents after `f`. -/
theorem foldl_convertStep_index (bw : BatchWorld) (nb : GoString) (st : RunState) :
    ∀ (files : List GoString) (i : Nat) (nf : GoString × Note),
      (files.foldl (convertStep bw nb) ([], st)).1[i]? = some nf →
      ∃ pre f post, files = pre ++ f :: post ∧
        (convertOne bw nb (pre.foldl (convertStep bw nb) ([], st)).2 f).1 = some nf ∧
        (files.foldl (convertStep bw nb) ([], st)).1.take i =
          (pre.foldl (convertStep bw nb) ([], st)).1 ∧
        (files.foldl (convertStep bw nb) ([], st)).1.drop (i + 1) =
          (post.foldl (convertStep bw nb)
            ([], ((pre ++ [f]).foldl (convertStep bw nb) ([], st)).2)).1 := by
  intro files
  induction files using List.reverseRecOn with
  | nil => intro i nf h; simp at h
  | append_singleton l f0 ih =>
    intro i nf h
    rw [foldl_convertStep_concat, convertStep_eq] at h ⊢
    simp only at h ⊢
    by_cases hi : i < (l.foldl (convertStep bw nb) ([], st)).1.length
    · rw [List.getElem?_append_left hi] at h
      obtain ⟨pre, f, post, hl, hone, htake, hdrop⟩ := ih i nf h
      refine ⟨pre, f, post ++ [f0], by rw [hl]; simp, hone, ?_, ?_⟩
      · rw [List.take_append_of_le_length (Nat.le_of_lt hi)]
        exact htake
      · rw [List.drop_append_of_le_length (Nat.succ_le_of_lt hi), hdrop,
          foldl_convertStep_concat bw nb post f0, convertStep_eq]
        simp only
        rw [← foldl_convertStep_split bw nb st pre post f, ← hl]
    · have hle : (l.foldl (convertStep bw nb) ([], st)).1.length ≤ i := Nat.le_of_not_lt hi
      rw [List.getElem?_append_right hle] at h
      cases hone : (convertOne bw nb (l.foldl (convertStep bw nb) ([], st)).2 f0).1 with
      | none => rw [hone] at h; simp at h
      | some nf0 =>
        simp only [hone] at h ⊢
        have hidx : i - (l.foldl (convertStep bw nb) ([], st)).1.length = 0 := by
          by_contra hne
          obtain ⟨k, hk⟩ := Nat.exists_eq_succ_of_ne_zero hne
          rw [hk] at h
          simp at h
        rw [hidx] at h
        have hnf : nf0 = nf := by simpa using h
        have hi0 : i = (l.foldl (convertStep bw nb) ([], st)).1.length := by omega
        subst hnf
        refine ⟨l, f0, [], rfl, hone, ?_, ?_⟩
        · rw [hi0]; simp
        · rw [hi0]; simp

/-- C11, amended. In every batch run of `BatchConvert`, every serialized Note
carries the attachment table as it stands when `processAttachments` of its own
document returns.  Precisely, for the note file `nf` at any index `i` of the
note files written by the run, the documents found split as `pre ++ f :: post`
such that: `nf` is what the loop body yields for the document `f` in the state
left by the documents `pre`; the note files before index `i` are exactly those
written for `pre`, and the note files after index `i` exactly those written for
`post`; `nf` is titled with the base name of `f` (`Untitled` if that is empty)
and named `note_` followed by the base64 of the title; and its attachment table
is the table after `processAttachments` of `f` run on the state left by `pre`:
the table left by the documents before it, never reset, with the attachments of
`f` registered, and nothing of the documents `post` after it. -/
theorem batch_note_table (bw : BatchWorld) (notebookName : GoString) (st : RunState)
    (i : Nat) (nf : GoString × Note)
    (h : (BatchConvert bw notebookName st).notes[i]? = some nf) :
    ∃ pre f post content, bw.globMd = some (pre ++ f :: post) ∧
      bw.readMd f = some content ∧
      (convertOne bw (B "nb_" ++ generateMD5Hash notebookName)
        (pre.foldl (convertStep bw (B "nb_" ++ generateMD5Hash notebookName)) ([], st)).2
        f).1 = some nf ∧
      (BatchConvert bw notebookName st).notes.take i =
        (pre.foldl (convertStep bw (B "nb_" ++ generateMD5Hash notebookName)) ([], st)).1 ∧
      (BatchConvert bw notebookName st).notes.drop (i + 1) =
        (post.foldl (convertStep bw (B "nb_" ++ generateMD5Hash notebookName))
          ([], ((pre ++ [f]).foldl
            (convertStep bw (B "nb_" ++ generateMD5Hash notebookName)) ([], st)).2)).1 ∧
      nf.2.Title =
        (if trimSuffix (filepathBase f) (B ".md") = [] then B "Untitled"
          else trimSuffix (filepathBase f) (B ".md")) ∧
      nf.1 = B "note_" ++ base64Encode nf.2.Title ∧
      nf.2.Attachment =
        (processAttachments bw.w f content
          (pre.foldl (convertStep bw (B "nb_" ++ generateMD5Hash notebookName))
            ([], st)).2).2.c.attachments := by
  have hnotes : (BatchConvert bw notebookName st).notes = [] ∨
      ∃ mdFiles : List GoString, bw.globMd = some mdFiles ∧
        (BatchConvert bw notebookName st).notes =
          (mdFiles.foldl (convertStep bw (B "nb_" ++ generateMD5Hash notebookName))
            ([], st)).1 := by
    unfold BatchConvert
    split
    · exact Or.inl rfl
    · split
      · exact Or.inl rfl
      · split
        · exact Or.inl rfl
        · rename_i mdFiles hglob
          split
          · exact Or.inl rfl
          · right
            refine ⟨mdFiles, hglob, ?_⟩
            simp only
            split <;> rfl
  rcases hnotes with hn | ⟨mdFiles, hglob, hn⟩
  · rw [hn] at h
    simp at h
  · rw [hn] at h ⊢
    obtain ⟨pre, f, post, hfiles, hone, htake, hdrop⟩ :=
      foldl_convertStep_index bw _ st mdFiles i nf h
    obtain ⟨content, hread, hatt⟩ := convertOne_note bw _ _ f nf hone
    obtain ⟨htitle, hname⟩ := convertOne_name bw _ _ f nf hone
    exact ⟨pre, f, post, content, by rw [hglob, hfiles], hread, hone, htake, hdrop, htitle,
      hname, hatt⟩

set_option maxRecDepth 100000 in
theorem batch_note_table_witness :
    (BatchConvert twoDocWorld (B "nb") { c := NewNSXConverter, clockReads := 0 }).notes =
      [twoDocFirstNote, twoDocSecondNote] ∧
    (BatchConvert twoDocWorld (B "nb") { c := NewNSXConverter, clockReads := 0 }).notes[0]? =
      some twoDocFirstNote ∧
    twoDocFirstNote.2.Attachment = [] ∧
    (processAttachments twoDocWorld.w (B "docs/a.md") (B "first")
      { c := NewNSXConverter, clockReads := 0 }).2.c.attachments = [] ∧
    ∃ pre f post content, twoDocWorld.globMd = some (pre ++ f :: post) ∧
      twoDocWorld.readMd f = some content ∧
      (convertOne twoDocWorld (B "nb_" ++ generateMD5Hash (B "nb"))
        (pre.foldl (convertStep twoDocWorld (B "nb_" ++ generateMD5Hash (B "nb")))
          ([], { c := NewNSXConverter, clockReads := 0 })).2 f).1 = some twoDocFirstNote ∧
      (BatchConvert twoDocWorld (B "nb")
          { c := NewNSXConverter, clockReads := 0 }).notes.take 0 =
        (pre.foldl (convertStep twoDocWorld (B "nb_" ++ generateMD5Hash (B "nb")))
          ([], { c := NewNSXConverter, clockReads := 0 })).1 ∧
      (BatchConvert twoDocWorld (B "nb")
          { c := NewNSXConverter, clockReads := 0 }).notes.drop (0 + 1) =
        (post.foldl (convertStep twoDocWorld (B "nb_" ++ generateMD5Hash (B "nb")))
          ([], ((pre ++ [f]).foldl
            (convertStep twoDocWorld (B "nb_" ++ generateMD5Hash (B "nb")))
            ([], { c := NewNSXConverter, clockReads := 0 })).2)).1 ∧
      twoDocFirstNote.2.Title =
        (if trimSuffix (filepathBase f) (B ".md") = [] then B "Untitled"
          else trimSuffix (filepathBase f) (B ".md")) ∧
      twoDocFirstNote.1 = B "note_" ++ base64Encode twoDocFirstNote.2.Title ∧
      twoDocFirstNote.2.Attachment =
        (processAttachments twoDocWorld.w f content
          (pre.foldl (convertStep twoDocWorld (B "nb_" ++ generateMD5Hash (B "nb")))
            ([], { c := NewNSXConverter, clockReads := 0 })).2).2.c.attachments :=
  ⟨by decide, by decide, rfl, by decide,
    batch_note_table twoDocWorld (B "nb") { c := NewNSXConverter, clockReads := 0 }
      0 twoDocFirstNote (by decide)⟩

theorem mapSet_mem (m : AttachmentMap) (k : GoString) (v : Attachment)
    (e : GoString × Attachment) (h : e ∈ mapSet m k v) : e = (k, v) ∨ e ∈ m := by
  unfold mapSet at h
  split at h
  · obtain ⟨e0, he0, rfl⟩ := List.mem_map.1 h
    split
    · exact Or.inl rfl
    · exact Or.inr he0
  · rcases List.mem_append.1 h with h | h
    · exact Or.inr h
    · exact Or.inl (List.mem_singleton.1 h)

/-- A call of `processAttachment` keeps the payload of every image attachment
cached. -/
theorem processAttachment_cached (w : World)
    (mdFile matchType altText link content : GoString) (st : RunState)
    (h : ImagesCached st.c) :
    ImagesCached (processAttachment w mdFile matchType altText link content st).2.2.c := by
  cases hf : findFile w mdFile link with
  | error err =>
    have := processAttachment_unresolved w mdFile matchType altText link content st
      (fun path hp => by rw [hf] at hp; cases hp)
    rw [this]
    exact h
  | ok path =>
    cases hr : w.readFile path with
    | none =>
      have := processAttachment_unresolved w mdFile matchType altText link content st
        (fun path' hp => by
          rw [hf] at hp
          cases hp
          exact hr)
      rw [this]
      exact h
    | some b =>
      rw [processAttachment_resolved w mdFile matchType altText link content path b st hf hr]
      intro e he hw
      simp only at he hw ⊢
      rcases mapSet_mem _ _ _ _ he with rfl | he
      · simp only at hw
        by_cases hi : classifyImage matchType (w.detect b) = true
        · refine ⟨b, rfl, rfl, ?_⟩
          rw [if_pos hi]
          exact List.mem_append_right _ (List.mem_singleton.2 rfl)
        · rw [if_neg hi] at hw
          exact absurd hw (by decide)
      · obtain ⟨b', h1, h2, h3⟩ := h e he hw
        refine ⟨b', h1, h2, ?_⟩
        split
        · exact List.mem_append_left _ h3
        · exact h3

theorem processAttachments_cached (w : World) (mdFile text : GoString) (st : RunState)
    (h : ImagesCached st.c) : ImagesCached (processAttachments w mdFile text st).2.c := by
  rw [processAttachments_eq_calls]
  have key : ∀ (calls : List (GoString × GoString × GoString)) (acc : GoString × RunState),
      ImagesCached acc.2.c →
      ImagesCached (calls.foldl
        (fun r c => (processAttachment w mdFile c.1 c.2.1 c.2.2 r.1 r.2).2) acc).2.c := by
    intro calls
    induction calls with
    | nil => intro acc hacc; exact hacc
    | cons c cs ih =>
      intro acc hacc
      rw [List.foldl_cons]
      exact ih _ (processAttachment_cached w mdFile c.1 c.2.1 c.2.2 acc.1 acc.2 hacc)
  exact key _ (text, st) h

theorem convertOne_cached (bw : BatchWorld) (nb : GoString) (st : RunState) (f : GoString)
    (h : ImagesCached st.c) : ImagesCached (convertOne bw nb st f).2.c := by
  unfold convertOne
  cases hr : bw.readMd f with
  | none => exact h
  | some content =>
    have hp := processAttachments_cached bw.w f content st h
    simp only [processAttachments_no_error]
    split
    · rw [createNote_state]
      exact hp
    · split
      · rw [createNote_state]
        exact hp
      · split
        · rw [createNote_state]
          exact hp
        · rw [createNote_state]
          exact hp

theorem foldl_convertStep_cached (bw : BatchWorld) (nb : GoString) :
    ∀ (files : List GoString) (acc : List (GoString × Note) × RunState),
      ImagesCached acc.2.c → ImagesCached (files.foldl (convertStep bw nb) acc).2.c := by
  intro files
  induction files with
  | nil => intro acc h; exact h
  | cons f fs ih =>
    intro acc h
    rw [List.foldl_cons]
    apply ih
    unfold convertStep
    split
    · exact convertOne_cached bw nb acc.2 f h
    · exact convertOne_cached bw nb acc.2 f h

theorem foldl_packImage_mem (pw : PackWorld) (img : ProcessedImage) (d : GoString)
    (hd : base64Decode img.ImageDataB64 = some d)
    (hc : ∀ n, pw.zipCreate n (B "file_" ++ img.MD5Hash) = true)
    (hw : ∀ n, pw.zipWrite n (B "file_" ++ img.MD5Hash) = true) :
    ∀ (imgs : List ProcessedImage) (zw : ZipWriter), img ∈ imgs →
      ({ name := B "file_" ++ img.MD5Hash, content := some (.bytes d) } : ZipEntry) ∈
        (imgs.foldl (packImage pw) zw).entries := by
  intro imgs
  induction imgs with
  | nil => intro zw h; simp at h
  | cons i is ih =>
    intro zw h
    rw [List.foldl_cons]
    rcases List.mem_cons.1 h with rfl | h
    · apply foldl_packImage_mono
      unfold packImage
      simp only [hd]
      rw [zipAdd_written pw _ _ _ (hc _) (hw _)]
      simp
    · exact ih _ h

/-- A run of `BatchConvert` either stops before the loop, leaving the state as
it was, or runs the loop over the files found and packages what it leaves. -/
theorem BatchConvert_cases (bw : BatchWorld) (notebookName : GoString) (st : RunState) :
    (BatchConvert bw notebookName st).st = st ∨
    ∃ mdFiles : List GoString,
      (BatchConvert bw notebookName st).st =
        (mdFiles.foldl (convertStep bw (B "nb_" ++ generateMD5Hash notebookName)) ([], st)).2 ∧
      (BatchConvert bw notebookName st).archive =
        (packageNSX bw.pack
          (mdFiles.foldl (convertStep bw (B "nb_" ++ generateMD5Hash notebookName))
            ([], st)).2.c notebookName (B "nb_" ++ generateMD5Hash notebookName)).2 := by
  unfold BatchConvert
  split
  · exact Or.inl rfl
  · split
    · exact Or.inl rfl
    · split
      · exact Or.inl rfl
      · rename_i mdFiles _
        split
        · exact Or.inl rfl
        · right
          refine ⟨mdFiles, ?_, ?_⟩
          · simp only
            split <;> rfl
          · simp only
            split <;> rfl

set_option maxRecDepth 100000 in
/-- C12, as stated, fails: the batch of one document that links `doc.pdf`
registers an attachment for it (8 bytes, not an image), caches no payload, and
the archive holds the note, the notebook and `config.json` only: no member
holds the bytes of `doc.pdf`. -/
theorem batch_pdf_counterexample :
    (BatchConvert pdfDocWorld (B "nb") { c := NewNSXConverter, clockReads := 0 }).err = none ∧
    (BatchConvert pdfDocWorld (B "nb")
        { c := NewNSXConverter, clockReads := 0 }).st.c.attachments =
      [(B "file_" ++ base64Encode (B "doc.pdf1700000000"),
        { MD5 := generateMD5Hash pdfBytes, Name := B "doc.pdf", Size := 8, Width := 0,
          Height := 0, MimeType := B "application/pdf", CTime := 1700000000,
          Ref := base64Encode (B "1700000000doc.pdf") })] ∧
    (BatchConvert pdfDocWorld (B "nb")
        { c := NewNSXConverter, clockReads := 0 }).st.c.processedImages = [] ∧
    (BatchConvert pdfDocWorld (B "nb") { c := NewNSXConverter, clockReads := 0 }).archive =
      [{ name := B "note_YQ==", content := some (.bytes (B "{}")) },
       { name := B "nb_" ++ generateMD5Hash (B "nb"),
         content := some (.notebook ⟨B "notebook", B "", B "nb"⟩) },
       { name := B "config.json",
         content := some (.config ⟨[B "note_YQ=="], [B "nb_" ++ generateMD5Hash (B "nb")]⟩) }] := by
  refine ⟨by decide, by decide, by decide, by decide⟩

/-- C12, amended. In every batch run of `BatchConvert` on a fresh converter, for
every Attachment of the attachment table that `processAttachment` classified as
an image (width 400), there are bytes `b` with the registered fingerprint and
size such that the archive built by `packageNSX` contains the member
`"file_" ++ MD5` holding `b`, provided the archive file is created, the note
files are listed, and the entry of that name is created and written. -/
theorem batch_image_members (bw : BatchWorld) (notebookName : GoString) (n : Nat) :
    ∀ e ∈ (BatchConvert bw notebookName { c := NewNSXConverter, clockReads := n }).st.c.attachments,
      e.2.Width = 400 →
      ∃ b : GoString, e.2.MD5 = generateMD5Hash b ∧ e.2.Size = b.length ∧
        (bw.pack.createFile = true → bw.pack.glob ≠ none →
          (∀ i, bw.pack.zipCreate i (B "file_" ++ e.2.MD5) = true) →
          (∀ i, bw.pack.zipWrite i (B "file_" ++ e.2.MD5) = true) →
          ({ name := B "file_" ++ e.2.MD5, content := some (.bytes b) } : ZipEntry) ∈
            (BatchConvert bw notebookName { c := NewNSXConverter, clockReads := n }).archive) := by
  have hfresh : ImagesCached ({ c := NewNSXConverter, clockReads := n } : RunState).c := by
    intro e he
    simp [NewNSXConverter] at he
  have hmain : ∀ (mdFiles : List GoString), ∀ e ∈ (mdFiles.foldl
      (convertStep bw (B "nb_" ++ generateMD5Hash notebookName))
      ([], { c := NewNSXConverter, clockReads := n })).2.c.attachments, e.2.Width = 400 →
      ∃ b : GoString, e.2.MD5 = generateMD5Hash b ∧ e.2.Size = b.length ∧
        (bw.pack.createFile = true → bw.pack.glob ≠ none →
          (∀ i, bw.pack.zipCreate i (B "file_" ++ e.2.MD5) = true) →
          (∀ i, bw.pack.zipWrite i (B "file_" ++ e.2.MD5) = true) →
          ({ name := B "file_" ++ e.2.MD5, content := some (.bytes b) } : ZipEntry) ∈
            (packageNSX bw.pack (mdFiles.foldl
              (convertStep bw (B "nb_" ++ generateMD5Hash notebookName))
              ([], { c := NewNSXConverter, clockReads := n })).2.c notebookName
              (B "nb_" ++ generateMD5Hash notebookName)).2) := by
    intro mdFiles e he hw
    obtain ⟨b, h1, h2, h3⟩ := foldl_convertStep_cached bw _ mdFiles _ hfresh e he hw
    refine ⟨b, h1, h2, ?_⟩
    intro hfile hglob hc hwr
    obtain ⟨noteFiles, hnf⟩ := Option.ne_none_iff_exists'.1 hglob
    apply packageNSX_keeps_images bw.pack _ notebookName _ noteFiles hfile hnf
    have := foldl_packImage_mem bw.pack
      { MD5Hash := generateMD5Hash b, ImageDataB64 := base64Encode b } b
      (base64Decode_encode b) (by rw [← h1]; exact hc) (by rw [← h1]; exact hwr) _
      (noteFiles.foldl (packNote bw.pack) ([], { entries := [], creates := 0 })).2 h3
    rw [h1]
    exact this
  intro e he hw
  rcases BatchConvert_cases bw notebookName { c := NewNSXConverter, clockReads := n } with
    hst | ⟨mdFiles, hst, harch⟩
  · rw [hst] at he
    simp [NewNSXConverter] at he
  · rw [hst] at he
    rw [harch]
    exact hmain mdFiles e he hw

set_option maxRecDepth 100000 in
theorem batch_image_members_witness :
    (B "file_cGljLnBuZzE3MDAwMDAwMDA=", picAttachment) ∈
      (BatchConvert twoDocWorld (B "nb")
        { c := NewNSXConverter, clockReads := 0 }).st.c.attachments ∧
    picAttachment.Width = 400 ∧
    ({ name := B "file_" ++ generateMD5Hash sampleBytes, content := some (.bytes sampleBytes) } :
        ZipEntry) ∈
      (BatchConvert twoDocWorld (B "nb") { c := NewNSXConverter, clockReads := 0 }).archive ∧
    ∃ b : GoString, picAttachment.MD5 = generateMD5Hash b ∧ picAttachment.Size = b.length ∧
      (twoDocWorld.pack.createFile = true → twoDocWorld.pack.glob ≠ none →
        (∀ i, twoDocWorld.pack.zipCreate i (B "file_" ++ picAttachment.MD5) = true) →
        (∀ i, twoDocWorld.pack.zipWrite i (B "file_" ++ picAttachment.MD5) = true) →
        ({ name := B "file_" ++ picAttachment.MD5, content := some (.bytes b) } : ZipEntry) ∈
          (BatchConvert twoDocWorld (B "nb")
            { c := NewNSXConverter, clockReads := 0 }).archive) :=
  ⟨by decide, rfl, by decide,
    batch_image_members twoDocWorld (B "nb") 0 (B "file_cGljLnBuZzE3MDAwMDAwMDA=", picAttachment)
      (by decide) rfl⟩

end Md2nsx
